import Mathlib

/-!
Shallow embedding of the `contindi` observatory controller, written against the
Python source under `src/contindi/`.  The embedding covers the pieces the
verification below needs: the event state machine (`events/base.py`), the
scheduler sweep and intake loop (`scheduler/scheduler.py`), series events,
switch vectors (`switch.py`), generic vector commands (`base.py`), the wire
chunker (`parsing.py`) and the `Sync` event constructor (`events/sync.py`).

Times (`time.time()`, julian dates, durations) are modelled as rationals;
job ids as strings.  Behaviour of concrete hardware polling inside the
subclass `update`/`trigger`/`cancel` methods depends on external device state,
so those methods enter the model as oracle fields (`updFn`, `trigFn`,
`cancelFn`) of an event, while the surrounding state machine (`Event._update`,
`Event._trigger`, `Event._cancel`) and the scheduler loop are translated
literally from the source.
-/

namespace Contindi

/-- Event status enum, `events/base.py` lines 14-20. -/
inductive EventStatus where
  | NotReady
  | Ready
  | Running
  | Finished
  | Canceling
  | Failed
deriving DecidableEq, Repr

/-- `EventStatus.is_done`, `events/base.py` lines 22-24. -/
def EventStatus.is_done (s : EventStatus) : Bool :=
  s = EventStatus.Finished ∨ s = EventStatus.Failed

/-- `EventStatus.is_active`, `events/base.py` lines 26-28. -/
def EventStatus.is_active (s : EventStatus) : Bool :=
  s = EventStatus.Running ∨ s = EventStatus.Canceling

/-- Job status enum from `scheduler/jobs.py` lines 20-24.  Note the source
enum has exactly these four members; there is no expired state. -/
inductive JobStatus where
  | QUEUED
  | RUNNING
  | FAILED
  | FINISHED
deriving DecidableEq, Repr

/-- The slice of the catalog `Job` record (`scheduler/jobs.py` lines 34-51)
that the scheduler loop reads or writes.  The job log is modelled as the list
of message strings appended through `PBCache.update_job` (the real log line
also carries an ISO/julian timestamp prefix in front of each message). -/
structure Job where
  cmd : String
  priority : Int
  jd_end : Option ℚ
  jd_start : Option ℚ
  duration : ℚ
  filter : String
  log : List String
  status : JobStatus
deriving DecidableEq, Repr

/-- An event as the scheduler sees it (`events/base.py` `Event` dataclass,
lines 54-78).  `updFn`, `trigFn` and `cancelFn` are the oracle dynamics of the
subclass `update`/`trigger`/`cancel` methods: each maps the status the event
has when the method is entered to the status the method leaves behind (the
leaf implementations in `events/slew.py`, `events/filter.py`,
`events/capture.py` and `events/sync.py` only ever read and write
`self.status`).  `cancelled` instruments whether the subclass `cancel` was
invoked. -/
structure Ev where
  job_id : String
  priority : Int
  max_time : ℚ
  start_time : Option ℚ
  status : EventStatus
  updFn : EventStatus → EventStatus
  trigFn : EventStatus → EventStatus
  cancelFn : EventStatus → EventStatus
  cancelled : Bool

/-- `Event._cancel`, `events/base.py` lines 97-106: no-op when the event is
already done, otherwise run the subclass `cancel`. -/
def Ev.runCancel (e : Ev) : Ev :=
  if e.status = EventStatus.Failed ∨ e.status = EventStatus.Finished then e
  else { e with cancelled := true, status := e.cancelFn e.status }

/-- The CPython message of the `TypeError` raised by
`time.time() - self._start_time` when `_start_time` is still `None`. -/
def startTimeNoneMsg : String :=
  "Failed with exception (update) unsupported operand type(s) for -: \x27float\x27 and \x27NoneType\x27"

/-- `Event._update`, `events/base.py` lines 108-126: skip when done, run the
subclass `update`, then enforce the `max_time` cap; the returned list holds
the log messages appended to the job through `cache.update_job`. -/
def Ev.runUpdate (now : ℚ) (e : Ev) : Ev × List String :=
  if e.status = EventStatus.Failed ∨ e.status = EventStatus.Finished then (e, [])
  else
    let e1 : Ev := { e with status := e.updFn e.status }
    if e1.status = EventStatus.Running then
      match e1.start_time with
      | none => ({ e1 with status := EventStatus.Failed }, [startTimeNoneMsg])
      | some t =>
        if e1.max_time < now - t then
          let e2 := e1.runCancel
          ({ e2 with status := EventStatus.Failed },
            ["Failed to complete within the time limit"])
        else (e1, [])
    else (e1, [])

/-- `Event._trigger`, `events/base.py` lines 128-138: only a `Ready` event is
triggered; `_start_time` is recorded before the subclass `trigger` runs. -/
def Ev.runTrigger (now : ℚ) (e : Ev) : Ev :=
  if e.status = EventStatus.Ready then
    { e with start_time := some now, status := e.trigFn EventStatus.Ready }
  else e

/-- Dictionary lookup on an association list keyed by job id (python dicts
keep one value per key; maps in this model are association lists whose keys
are unique). -/
def lookupId : List (String × α) → String → Option α
  | [], _ => none
  | p :: ps, id => if p.1 = id then some p.2 else lookupId ps id

/-- One `PBCache.update_job` call (`scheduler/cache.py` lines 53-69) on the
in-memory image of the catalog: optionally set the status field, optionally
append a log message. -/
def update_job (jobs : List (String × Job)) (id : String)
    (status : Option JobStatus) (log : Option String) : List (String × Job) :=
  jobs.map fun p =>
    if p.1 = id then
      (p.1, { p.2 with status := status.getD p.2.status, log := p.2.log ++ log.toList })
    else p

/-- `Event.__lt__` (`events/base.py` lines 140-141) compares events by
priority with `<`; python `sorted` is an ascending stable sort on that
comparison.  `insertAsc`/`sortAsc` implement exactly that stable ascending
sort for the event map (`scheduler/scheduler.py` line 77). -/
def insertAsc (p : String × Ev) : List (String × Ev) → List (String × Ev)
  | [] => [p]
  | q :: qs =>
    if q.2.priority < p.2.priority then q :: insertAsc p qs else p :: q :: qs

/-- Stable ascending sort of the event map by `Event.__lt__`. -/
def sortAsc : List (String × Ev) → List (String × Ev)
  | [] => []
  | p :: ps => insertAsc p (sortAsc ps)

/-- Accumulator of the sweep loop of `run_schedule`
(`scheduler/scheduler.py` lines 79-107). -/
structure SweepState where
  processed : List (String × Ev)
  runningId : Option String
  triggerId : Option String
  deleteIds : List String
  jobs : List (String × Job)

/-- One iteration of the sweep loop body, `scheduler/scheduler.py` lines
82-107: update the event, re-fetch the job (gone ⇒ cancel and schedule for
deletion), record a running event, retire finished/failed events, push the
running status into the job, remember the first ready event as the trigger
candidate. -/
def sweepStep (now : ℚ) (st : SweepState) (p : String × Ev) : SweepState :=
  let id := p.1
  let upd := Ev.runUpdate now p.2
  let ev1 := upd.1
  let jobs1 := upd.2.foldl (fun js m => update_job js id none (some m)) st.jobs
  match lookupId jobs1 id with
  | none =>
    let ev2 : Ev := { ev1 with cancelled := true, status := ev1.cancelFn ev1.status }
    { st with
      processed := st.processed ++ [(id, ev2)]
      deleteIds := st.deleteIds ++ [id]
      jobs := jobs1 }
  | some job =>
    let st1 : SweepState :=
      { st with jobs := jobs1, processed := st.processed ++ [(id, ev1)] }
    let st2 :=
      if ev1.status = EventStatus.Running then { st1 with runningId := some id } else st1
    if ev1.status = EventStatus.Finished then
      { st2 with
        deleteIds := st2.deleteIds ++ [id]
        jobs := update_job st2.jobs id (some JobStatus.FINISHED) (some "Finished") }
    else if ev1.status = EventStatus.Failed then
      { st2 with
        deleteIds := st2.deleteIds ++ [id]
        jobs := update_job st2.jobs id (some JobStatus.FAILED) (some "Failed") }
    else if ev1.status = EventStatus.Running ∨ ev1.status = EventStatus.Canceling then
      if job.status ≠ JobStatus.RUNNING then
        { st2 with jobs := update_job st2.jobs id (some JobStatus.RUNNING) none }
      else st2
    else if ev1.status = EventStatus.NotReady then st2
    else if ev1.status = EventStatus.Ready ∧ st2.triggerId = none then
      { st2 with triggerId := some id }
    else st2

/-- Result of one full scheduler sweep: the new event map, the catalog image,
and the list of job ids on which `_trigger` was invoked. -/
structure SweepResult where
  evmap : List (String × Ev)
  jobs : List (String × Job)
  triggered : List String

/-- One full sweep of `run_schedule` (`scheduler/scheduler.py` lines 77-120):
re-sort the event map ascending by `Event.__lt__`, run the loop body on every
entry, delete retired entries, and, when no running event was recorded and a
trigger candidate exists, mark its job running and trigger it. -/
def sweep (now : ℚ) (jobs : List (String × Job)) (evmap : List (String × Ev)) :
    SweepResult :=
  let sorted := sortAsc evmap
  let st0 : SweepState :=
    { processed := [], runningId := none, triggerId := none, deleteIds := [], jobs := jobs }
  let st := sorted.foldl (sweepStep now) st0
  let m1 := st.processed.filter fun p => decide (p.1 ∉ st.deleteIds)
  match st.runningId, st.triggerId with
  | none, some tid =>
    match lookupId st.jobs tid with
    | none =>
      { evmap := (m1.map fun p => if p.1 = tid then (p.1, p.2.runCancel) else p).filter
          (fun p => p.1 ≠ tid)
        jobs := st.jobs
        triggered := [] }
    | some _ =>
      { evmap := m1.map fun p => if p.1 = tid then (p.1, p.2.runTrigger now) else p
        jobs := update_job st.jobs tid (some JobStatus.RUNNING) none
        triggered := [tid] }
  | _, _ => { evmap := m1, jobs := st.jobs, triggered := [] }

/-- One iteration of the intake loop of `run_schedule`
(`scheduler/scheduler.py` lines 54-76) over one fetched job: skip jobs already
in the map or already done, fail stale running jobs, parse the rest and insert
the parsed event into the event map.  `parse` stands for `Job.parse_job`
(`scheduler/jobs.py` lines 94-130), whose time conversions live in the
external `kete` library; a parse exception is an `Except.error` carrying the
exception text. -/
def intakeStep (parse : String → Job → Except String Ev)
    (acc : List (String × Ev) × List (String × Job)) (p : String × Job) :
    List (String × Ev) × List (String × Job) :=
  let id := p.1
  let job := p.2
  if (lookupId acc.1 id).isSome then acc
  else if job.status = JobStatus.FINISHED ∨ job.status = JobStatus.FAILED then acc
  else if job.status = JobStatus.RUNNING then
    (acc.1, update_job acc.2 id (some JobStatus.FAILED)
      (some "Job was running, but no event found."))
  else
    match parse id job with
    | Except.error e =>
      (acc.1, update_job acc.2 id (some JobStatus.FAILED)
        (some ("Failed to parse job: " ++ e)))
    | Except.ok ev => (acc.1 ++ [(id, ev)], acc.2)

/-- The intake phase of `run_schedule` (`scheduler/scheduler.py` lines
54-76): fold the loop body over the fetched job list. -/
def intake (parse : String → Job → Except String Ev)
    (fetched : List (String × Job)) (evmap : List (String × Ev))
    (jobs : List (String × Job)) : List (String × Ev) × List (String × Job) :=
  fetched.foldl (intakeStep parse) (evmap, jobs)

/-! ### Sweep loop characterization

Helper notions and lemmas describing one pass of the sweep loop, used for the
single-active-event invariant. -/

/-- Status an event is left with by `Event._update` during the sweep. -/
def postUpd (now : ℚ) (e : Ev) : EventStatus := (Ev.runUpdate now e).1.status

/-- The event stored back into the map by one sweep-loop iteration: the
updated event, additionally cancelled when the backing job has disappeared
from the catalog (`alive` is job existence, which `update_job` never
changes). -/
def procEnt (now : ℚ) (alive : String → Bool) (p : String × Ev) : String × Ev :=
  let ev1 := (Ev.runUpdate now p.2).1
  if alive p.1 then (p.1, ev1)
  else (p.1, { ev1 with cancelled := true, status := ev1.cancelFn ev1.status })

theorem procEnt_fst (now : ℚ) (alive : String → Bool) (p : String × Ev) :
    (procEnt now alive p).1 = p.1 := by
  unfold procEnt; split <;> rfl

theorem procEnt_status_of_alive (now : ℚ) (alive : String → Bool) (p : String × Ev)
    (h : alive p.1 = true) : (procEnt now alive p).2.status = postUpd now p.2 := by
  unfold procEnt
  rw [if_pos h]
  rfl

theorem lookupId_map_keyfix {α β : Type} (f : String × α → String × β)
    (hf : ∀ p, (f p).1 = p.1) (l : List (String × α)) (id : String) :
    (lookupId (l.map f) id).isSome = (lookupId l id).isSome := by
  induction l with
  | nil => rfl
  | cons p ps ih =>
    simp only [List.map_cons, lookupId, hf p]
    by_cases h : p.1 = id
    · simp [h]
    · simp [h, ih]

theorem lookupId_update_job (js : List (String × Job)) (i : String)
    (s : Option JobStatus) (l : Option String) (id : String) :
    (lookupId (update_job js i s l) id).isSome = (lookupId js id).isSome := by
  unfold update_job
  apply lookupId_map_keyfix
  intro p
  by_cases h : p.1 = i <;> simp [h]

theorem lookupId_foldl_update_job (msgs : List String) (js : List (String × Job))
    (i id : String) :
    (lookupId (msgs.foldl (fun js m => update_job js i none (some m)) js) id).isSome
      = (lookupId js id).isSome := by
  induction msgs generalizing js with
  | nil => rfl
  | cons m ms ih => rw [List.foldl_cons, ih, lookupId_update_job]

theorem sweepStep_jobs_keys (now : ℚ) (st : SweepState) (p : String × Ev) (id : String) :
    (lookupId (sweepStep now st p).jobs id).isSome = (lookupId st.jobs id).isSome := by
  simp only [sweepStep]
  split
  · simp [lookupId_foldl_update_job]
  · repeat' split
    all_goals
      simp [lookupId_update_job, lookupId_foldl_update_job]

theorem sweepStep_processed (now : ℚ) (st : SweepState) (p : String × Ev) :
    (sweepStep now st p).processed
      = st.processed ++ [procEnt now (fun id => (lookupId st.jobs id).isSome) p] := by
  have halive : ∀ o : Option Job,
      lookupId ((Ev.runUpdate now p.2).2.foldl
        (fun js m => update_job js p.1 none (some m)) st.jobs) p.1 = o →
      (lookupId st.jobs p.1).isSome = o.isSome := by
    intro o h
    rw [← lookupId_foldl_update_job (Ev.runUpdate now p.2).2 st.jobs p.1 p.1, h]
  simp only [sweepStep]
  split
  · rename_i heq
    have hdead := halive _ heq
    simp only [Option.isSome_none] at hdead
    simp [procEnt, hdead]
  · rename_i job heq
    have hlive := halive _ heq
    simp only [Option.isSome_some] at hlive
    repeat' split
    all_goals simp_all [procEnt, postUpd]

theorem sweepStep_runningId (now : ℚ) (st : SweepState) (p : String × Ev) :
    (sweepStep now st p).runningId
      = if (lookupId st.jobs p.1).isSome = true ∧ postUpd now p.2 = EventStatus.Running
        then some p.1 else st.runningId := by
  have halive : ∀ o : Option Job,
      lookupId ((Ev.runUpdate now p.2).2.foldl
        (fun js m => update_job js p.1 none (some m)) st.jobs) p.1 = o →
      (lookupId st.jobs p.1).isSome = o.isSome := by
    intro o h
    rw [← lookupId_foldl_update_job (Ev.runUpdate now p.2).2 st.jobs p.1 p.1, h]
  simp only [sweepStep]
  split
  · rename_i heq
    have hdead := halive _ heq
    simp only [Option.isSome_none] at hdead
    simp [hdead]
  · rename_i job heq
    have hlive := halive _ heq
    simp only [Option.isSome_some] at hlive
    repeat' split
    all_goals simp_all [postUpd]

theorem sweepStep_triggerId (now : ℚ) (st : SweepState) (p : String × Ev) :
    (sweepStep now st p).triggerId
      = if (lookupId st.jobs p.1).isSome = true ∧ postUpd now p.2 = EventStatus.Ready
          ∧ st.triggerId = none
        then some p.1 else st.triggerId := by
  have halive : ∀ o : Option Job,
      lookupId ((Ev.runUpdate now p.2).2.foldl
        (fun js m => update_job js p.1 none (some m)) st.jobs) p.1 = o →
      (lookupId st.jobs p.1).isSome = o.isSome := by
    intro o h
    rw [← lookupId_foldl_update_job (Ev.runUpdate now p.2).2 st.jobs p.1 p.1, h]
  simp only [sweepStep]
  split
  · rename_i heq
    have hdead := halive _ heq
    simp only [Option.isSome_none] at hdead
    simp [hdead]
  · rename_i job heq
    have hlive := halive _ heq
    simp only [Option.isSome_some] at hlive
    repeat' split
    all_goals simp_all [postUpd]

theorem sweepStep_deleteIds (now : ℚ) (st : SweepState) (p : String × Ev) :
    (sweepStep now st p).deleteIds
      = st.deleteIds ++
        (if (lookupId st.jobs p.1).isSome = false
            ∨ postUpd now p.2 = EventStatus.Finished
            ∨ postUpd now p.2 = EventStatus.Failed
         then [p.1] else []) := by
  have halive : ∀ o : Option Job,
      lookupId ((Ev.runUpdate now p.2).2.foldl
        (fun js m => update_job js p.1 none (some m)) st.jobs) p.1 = o →
      (lookupId st.jobs p.1).isSome = o.isSome := by
    intro o h
    rw [← lookupId_foldl_update_job (Ev.runUpdate now p.2).2 st.jobs p.1 p.1, h]
  simp only [sweepStep]
  split
  · rename_i heq
    have hdead := halive _ heq
    simp only [Option.isSome_none] at hdead
    simp [hdead]
  · rename_i job heq
    have hlive := halive _ heq
    simp only [Option.isSome_some] at hlive
    repeat' split
    all_goals simp_all [postUpd]

theorem sweepLoop_jobs_keys (now : ℚ) (l : List (String × Ev)) :
    ∀ (st : SweepState) (id : String),
    (lookupId (l.foldl (sweepStep now) st).jobs id).isSome
      = (lookupId st.jobs id).isSome := by
  induction l with
  | nil => intro st id; rfl
  | cons p ps ih =>
    intro st id
    rw [List.foldl_cons, ih, sweepStep_jobs_keys]

theorem sweepLoop_processed (now : ℚ) (l : List (String × Ev)) :
    ∀ st : SweepState, (l.foldl (sweepStep now) st).processed
      = st.processed ++ l.map (procEnt now fun id => (lookupId st.jobs id).isSome) := by
  induction l with
  | nil => intro st; simp
  | cons p ps ih =>
    intro st
    rw [List.foldl_cons, ih]
    have hfun : (fun id => (lookupId (sweepStep now st p).jobs id).isSome)
        = (fun id => (lookupId st.jobs id).isSome) := by
      funext id
      exact sweepStep_jobs_keys now st p id
    rw [hfun, sweepStep_processed]
    simp [List.map_cons]

theorem sweepLoop_deleteIds_mono (now : ℚ) (l : List (String × Ev)) :
    ∀ (st : SweepState) (i : String), i ∈ st.deleteIds →
      i ∈ (l.foldl (sweepStep now) st).deleteIds := by
  induction l with
  | nil => intro st i h; exact h
  | cons p ps ih =>
    intro st i h
    rw [List.foldl_cons]
    refine ih _ i ?_
    rw [sweepStep_deleteIds]
    exact List.mem_append_left _ h

theorem sweepLoop_deleteIds_dead (now : ℚ) (l : List (String × Ev)) :
    ∀ (st : SweepState) (p : String × Ev), p ∈ l →
      (lookupId st.jobs p.1).isSome = false →
      p.1 ∈ (l.foldl (sweepStep now) st).deleteIds := by
  induction l with
  | nil => intro st p h; cases h
  | cons q qs ih =>
    intro st p hp hdead
    rw [List.foldl_cons]
    rcases List.mem_cons.mp hp with h | h
    · subst h
      refine sweepLoop_deleteIds_mono now qs _ p.1 ?_
      rw [sweepStep_deleteIds, if_pos (Or.inl hdead)]
      simp
    · refine ih _ p h ?_
      rw [sweepStep_jobs_keys]
      exact hdead

theorem sweepLoop_runningId_none (now : ℚ) (l : List (String × Ev)) :
    ∀ st : SweepState, (l.foldl (sweepStep now) st).runningId = none →
      st.runningId = none ∧ ∀ p ∈ l, (lookupId st.jobs p.1).isSome = true →
        postUpd now p.2 ≠ EventStatus.Running := by
  induction l with
  | nil =>
    intro st h
    exact ⟨h, fun p hp => absurd hp (List.not_mem_nil p)⟩
  | cons q qs ih =>
    intro st h
    rw [List.foldl_cons] at h
    obtain ⟨h1, h2⟩ := ih _ h
    rw [sweepStep_runningId] at h1
    by_cases hc : (lookupId st.jobs q.1).isSome = true
        ∧ postUpd now q.2 = EventStatus.Running
    · rw [if_pos hc] at h1; cases h1
    · rw [if_neg hc] at h1
      refine ⟨h1, ?_⟩
      intro p hp halive
      rcases List.mem_cons.mp hp with hh | hh
      · subst hh
        intro hrun
        exact hc ⟨halive, hrun⟩
      · refine h2 p hh ?_
        rw [sweepStep_jobs_keys]
        exact halive

theorem sweepLoop_triggerId_some (now : ℚ) (l : List (String × Ev)) :
    ∀ (st : SweepState) (tid : String),
      (l.foldl (sweepStep now) st).triggerId = some tid →
      st.triggerId = some tid ∨ ∃ p, p ∈ l ∧ p.1 = tid ∧
        (lookupId st.jobs p.1).isSome = true ∧ postUpd now p.2 = EventStatus.Ready := by
  induction l with
  | nil => intro st tid h; exact Or.inl h
  | cons q qs ih =>
    intro st tid h
    rw [List.foldl_cons] at h
    rcases ih _ _ h with h1 | ⟨p, hp, hid, halive, hready⟩
    · rw [sweepStep_triggerId] at h1
      by_cases hc : (lookupId st.jobs q.1).isSome = true
          ∧ postUpd now q.2 = EventStatus.Ready ∧ st.triggerId = none
      · rw [if_pos hc] at h1
        refine Or.inr ⟨q, List.mem_cons_self q qs, ?_, hc.1, hc.2.1⟩
        exact Option.some.inj h1
      · rw [if_neg hc] at h1
        exact Or.inl h1
    · refine Or.inr ⟨p, List.mem_cons_of_mem q hp, hid, ?_, hready⟩
      rw [sweepStep_jobs_keys] at halive
      exact halive

theorem insertAsc_perm (p : String × Ev) (l : List (String × Ev)) :
    (insertAsc p l).Perm (p :: l) := by
  induction l with
  | nil => exact List.Perm.refl _
  | cons q qs ih =>
    unfold insertAsc
    split
    · exact (ih.cons q).trans (List.Perm.swap p q qs)
    · exact List.Perm.refl _

theorem sortAsc_perm (l : List (String × Ev)) : (sortAsc l).Perm l := by
  induction l with
  | nil => exact List.Perm.refl _
  | cons p ps ih => exact (insertAsc_perm p (sortAsc ps)).trans (ih.cons p)

theorem length_filter_filter_map_le {α β : Type} (f : α → β) (r q : β → Bool)
    (s : α → Bool) (l : List α)
    (h : ∀ p ∈ l, r (f p) = true → q (f p) = true → s p = true) :
    (((l.map f).filter r).filter q).length ≤ (l.filter s).length := by
  induction l with
  | nil => simp
  | cons p ps ih =>
    have ih' := ih fun a ha => h a (List.mem_cons_of_mem p ha)
    simp only [List.map_cons, List.filter_cons]
    by_cases hr : r (f p) = true
    · rw [if_pos hr, List.filter_cons]
      by_cases hq : q (f p) = true
      · rw [if_pos hq, if_pos (h p (List.mem_cons_self p ps) hr hq)]
        simpa using ih'
      · rw [if_neg hq]
        by_cases hs : s p = true
        · rw [if_pos hs]
          exact Nat.le_trans ih' (by simp [Nat.le_succ])
        · rw [if_neg hs]
          exact ih'
    · rw [if_neg hr]
      by_cases hs : s p = true
      · rw [if_pos hs]
        exact Nat.le_trans ih' (by simp [Nat.le_succ])
      · rw [if_neg hs]
        exact ih'

theorem map_ite_id (tid : String) (g : Ev → Ev) :
    ∀ ps : List (String × Ev), (∀ q ∈ ps, q.1 ≠ tid) →
      ps.map (fun q => if q.1 = tid then (q.1, g q.2) else q) = ps := by
  intro ps
  induction ps with
  | nil => intro _; rfl
  | cons q qs ih =>
    intro h
    simp only [List.map_cons]
    rw [if_neg (h q (List.mem_cons_self q qs)), ih fun a ha => h a (List.mem_cons_of_mem q ha)]

theorem length_filter_map_ite_le (tid : String) (g : Ev → Ev)
    (m1 : List (String × Ev)) (hN : (m1.map Prod.fst).Nodup)
    (hO : ∀ q ∈ m1, q.2.status.is_active = false) :
    ((m1.map fun p => if p.1 = tid then (p.1, g p.2) else p).filter
      (fun q => q.2.status.is_active)).length ≤ 1 := by
  induction m1 with
  | nil => simp
  | cons p ps ih =>
    simp only [List.map_cons, List.nodup_cons] at hN
    by_cases hp : p.1 = tid
    · have htail : ∀ q ∈ ps, q.1 ≠ tid := by
        intro q hq hqt
        apply hN.1
        have hpq : p.1 = q.1 := by rw [hp, hqt]
        rw [hpq]
        exact List.mem_map_of_mem Prod.fst hq
      have hnil : ps.filter (fun q => q.2.status.is_active) = [] := by
        rw [List.filter_eq_nil_iff]
        intro a ha
        simp [hO a (List.mem_cons_of_mem p ha)]
      simp only [List.map_cons, List.filter_cons, map_ite_id tid g ps htail, hnil]
      repeat' split
      all_goals simp
    · have hhead : p.2.status.is_active = false := hO p (List.mem_cons_self p ps)
      simp only [List.map_cons, List.filter_cons, if_neg hp, hhead]
      simp only [Bool.false_eq_true, if_false]
      exact ih hN.2 fun a ha => hO a (List.mem_cons_of_mem p ha)

theorem map_fst_procEnt (now : ℚ) (alive : String → Bool) :
    ∀ l : List (String × Ev),
      (l.map (procEnt now alive)).map Prod.fst = l.map Prod.fst := by
  intro l
  induction l with
  | nil => rfl
  | cons p ps ih =>
    simp only [List.map_cons, ih, procEnt_fst]

/-! ### C1: sweep order of ready events

Concrete sweep with two ready events of priorities 5 and 10 and no running
event.  The oracle dynamics below are those of the leaf events: `update` is a
no-op on a `Ready` event (`events/slew.py` line 25, `events/filter.py` line
23, `events/capture.py` line 22 all guard on `status == Running`), `trigger`
moves a ready event to `Running`, `cancel` fails it. -/

/-- A ready leaf event with the given priority, waiting to be triggered. -/
def readyEv (id : String) (pr : Int) : Ev :=
  { job_id := id, priority := pr, max_time := 45, start_time := none,
    status := EventStatus.Ready,
    updFn := fun s => s,
    trigFn := fun _ => EventStatus.Running,
    cancelFn := fun _ => EventStatus.Failed,
    cancelled := false }

/-- A queued catalog job backing one of the two events. -/
def queuedJob (pr : Int) : Job :=
  { cmd := "STATIC 10.0 20.0", priority := pr, jd_end := some 200,
    jd_start := some 0, duration := 10, filter := "R", log := [],
    status := JobStatus.QUEUED }

/-- The event map of scenario S6: event `A` of priority 5 and event `B` of
priority 10, both ready. -/
def c1map : List (String × Ev) := [("A", readyEv "A" 5), ("B", readyEv "B" 10)]

/-- The catalog image for scenario S6. -/
def c1jobs : List (String × Job) := [("A", queuedJob 5), ("B", queuedJob 10)]

end Contindi

open Contindi

/-- C1: with two ready events of priority 5 (`A`) and priority 10 (`B`) and
no running event, a sweep of `run_schedule` triggers the priority-5 event
`A`, not the priority-10 event `B`: `Event.__lt__` orders by `priority <`
and line 77 of `scheduler/scheduler.py` sorts the event map ascending with
it, so the lowest-priority ready event is encountered first and becomes the
trigger candidate, contradicting the claim (and the docstring of `Event`,
"Higher priority events are run first"). -/
theorem c1_sweep_triggers_priority5_event :
    (sweep 0 c1jobs c1map).triggered = ["A"] ∧
    (readyEv "A" 5).priority = 5 ∧ (readyEv "B" 10).priority = 10 ∧
    (lookupId (sweep 0 c1jobs c1map).evmap "A").map Ev.status
      = some EventStatus.Running ∧
    (lookupId (sweep 0 c1jobs c1map).evmap "B").map Ev.status
      = some EventStatus.Ready := by
  refine ⟨?_, rfl, rfl, ?_, ?_⟩ <;> rfl

/-- C2: at the exit of a scheduler sweep at most one event in the event map
is `running` or `canceling`, a trigger is issued only when the sweep found no
running event backed by a live job, and at most one event is triggered per
sweep.  The hypotheses record what holds of every event class in this
repository: no `update` method ever leaves the status `Canceling` (no class
assigns it), and — inductively, since only a dispatch can start an event —
at most one event in the map comes out of the update phase `Running`. -/
theorem c2_sweep_at_most_one_active (now : ℚ) (jobs : List (String × Job))
    (evmap : List (String × Ev))
    (hnd : (evmap.map Prod.fst).Nodup)
    (hC : ∀ p ∈ evmap, postUpd now p.2 ≠ EventStatus.Canceling)
    (hR : (evmap.filter fun p => decide (postUpd now p.2 = EventStatus.Running)).length ≤ 1) :
    ((sweep now jobs evmap).evmap.filter fun q => q.2.status.is_active).length ≤ 1 ∧
    ((sweep now jobs evmap).triggered ≠ [] →
      ∀ p ∈ evmap, (lookupId jobs p.1).isSome = true →
        postUpd now p.2 ≠ EventStatus.Running) ∧
    (sweep now jobs evmap).triggered.length ≤ 1 := by
  have hperm := sortAsc_perm evmap
  simp only [sweep]
  set st0 : SweepState :=
    { processed := [], runningId := none, triggerId := none, deleteIds := [], jobs := jobs }
    with hst0
  set fin := (sortAsc evmap).foldl (sweepStep now) st0 with hfin
  have hkeys : ∀ id, (lookupId fin.jobs id).isSome = (lookupId jobs id).isSome := by
    intro id
    rw [hfin, sweepLoop_jobs_keys]
  have hproc : fin.processed
      = (sortAsc evmap).map (procEnt now fun id => (lookupId jobs id).isSome) := by
    rw [hfin, sweepLoop_processed]
    rfl
  have hmemmap : ∀ p ∈ sortAsc evmap, p ∈ evmap := fun p hp => hperm.subset hp
  -- pointwise fact used to bound the active entries surviving deletion
  have hpointwise : ∀ p ∈ sortAsc evmap,
      decide ((procEnt now (fun id => (lookupId jobs id).isSome) p).1 ∉ fin.deleteIds) = true →
      (procEnt now (fun id => (lookupId jobs id).isSome) p).2.status.is_active = true →
      decide (postUpd now p.2 = EventStatus.Running) = true := by
    intro p hp hnotdel hact
    by_cases ha : (lookupId jobs p.1).isSome = true
    · rw [procEnt_status_of_alive _ _ _ ha] at hact
      have hCp := hC p (hmemmap p hp)
      simp only [EventStatus.is_active, decide_eq_true_eq] at hact ⊢
      rcases hact with h | h
      · exact h
      · exact absurd h hCp
    · exfalso
      have hdead : p.1 ∈ fin.deleteIds := by
        rw [hfin]
        exact sweepLoop_deleteIds_dead now _ st0 p hp (by simpa using ha)
      rw [procEnt_fst] at hnotdel
      simp only [decide_eq_true_eq] at hnotdel
      exact hnotdel hdead
  have hRs : ((sortAsc evmap).filter
      fun p => decide (postUpd now p.2 = EventStatus.Running)).length
      ≤ 1 := by
    calc ((sortAsc evmap).filter
        fun p => decide (postUpd now p.2 = EventStatus.Running)).length
        = (evmap.filter fun p => decide (postUpd now p.2 = EventStatus.Running)).length :=
          (hperm.filter _).length_eq
      _ ≤ 1 := hR
  have hbound : ((fin.processed.filter fun p => decide (p.1 ∉ fin.deleteIds)).filter
      (fun q => q.2.status.is_active)).length ≤ 1 := by
    rw [hproc]
    exact Nat.le_trans
      (length_filter_filter_map_le _ _ _ _ _ hpointwise) hRs
  rcases hr : fin.runningId with _ | rid
  · rcases ht : fin.triggerId with _ | tid
    · simp only [hr, ht]
      refine ⟨hbound, by simp, by simp⟩
    · -- a trigger candidate exists and no running event was found
      obtain ⟨-, hnoRun⟩ := sweepLoop_runningId_none now _ st0 (hfin ▸ hr)
      have hO : ∀ q ∈ fin.processed.filter fun p => decide (p.1 ∉ fin.deleteIds),
          q.2.status.is_active = false := by
        intro q hq
        obtain ⟨hqm, hqdel⟩ := List.mem_filter.mp hq
        rw [hproc] at hqm
        obtain ⟨p, hp, rfl⟩ := List.mem_map.mp hqm
        by_cases ha : (lookupId jobs p.1).isSome = true
        · rw [procEnt_status_of_alive _ _ _ ha]
          have h1 : postUpd now p.2 ≠ EventStatus.Running := hnoRun p hp ha
          have h2 : postUpd now p.2 ≠ EventStatus.Canceling := hC p (hmemmap p hp)
          simp only [EventStatus.is_active]
          simp [h1, h2]
        · exfalso
          have hdead : p.1 ∈ fin.deleteIds := by
            rw [hfin]
            exact sweepLoop_deleteIds_dead now _ st0 p hp (by simpa using ha)
          rw [procEnt_fst] at hqdel
          simp only [decide_eq_true_eq] at hqdel
          exact hqdel hdead
      have hNoRunAll : ∀ p ∈ evmap, (lookupId jobs p.1).isSome = true →
          postUpd now p.2 ≠ EventStatus.Running := by
        intro p hp
        exact hnoRun p (hperm.mem_iff.mpr hp)
      have hnd1 : ((fin.processed.filter fun p => decide (p.1 ∉ fin.deleteIds)).map
          Prod.fst).Nodup := by
        have hsub : (fin.processed.filter fun p => decide (p.1 ∉ fin.deleteIds)).Sublist
            fin.processed := List.filter_sublist _
        have hsubmap := hsub.map Prod.fst
        have hbase : (fin.processed.map Prod.fst).Nodup := by
          rw [hproc, map_fst_procEnt]
          exact ((hperm.map Prod.fst).nodup_iff).mpr hnd
        exact hsubmap.nodup hbase
      rcases hjob : lookupId fin.jobs tid with _ | job
      · simp only [hr, ht, hjob]
        refine ⟨?_, by simp, by simp⟩
        -- every surviving entry is untouched and inactive
        have := length_filter_filter_map_le
          (fun p => if p.1 = tid then (p.1, p.2.runCancel) else p)
          (fun p => decide (p.1 ≠ tid)) (fun q => q.2.status.is_active)
          (fun _ => false)
          (fin.processed.filter fun p => decide (p.1 ∉ fin.deleteIds))
          ?_
        · refine Nat.le_trans this ?_
          simp
        · intro p hp hne hact
          exfalso
          have hne2 : decide ((if p.1 = tid then (p.1, p.2.runCancel) else p).1 ≠ tid)
              = true := hne
          have hact2 : (if p.1 = tid then (p.1, p.2.runCancel) else p).2.status.is_active
              = true := hact
          simp only [decide_eq_true_eq] at hne2
          by_cases hptid : p.1 = tid
          · rw [if_pos hptid] at hne2
            exact hne2 hptid
          · rw [if_neg hptid] at hact2
            rw [hO p hp] at hact2
            cases hact2
      · simp only [hr, ht, hjob]
        refine ⟨?_, ?_, by simp⟩
        · exact length_filter_map_ite_le tid (fun e => e.runTrigger now) _ hnd1 hO
        · intro _
          exact hNoRunAll
  · rcases ht : fin.triggerId with _ | tid <;> simp only [hr, ht] <;>
      exact ⟨hbound, by simp, by simp⟩

/-- Witness event map for the sweep invariant: one ready event. -/
def c2wmap : List (String × Ev) := [("W", readyEv "W" 1)]

/-- Witness catalog for the sweep invariant: the backing queued job. -/
def c2wjobs : List (String × Job) := [("W", queuedJob 1)]

/-- Witness for C2 at a concrete map with one ready event. -/
theorem c2_sweep_at_most_one_active_witness :
    ((c2wmap.map Prod.fst).Nodup ∧
      (∀ p ∈ c2wmap, postUpd 0 p.2 ≠ EventStatus.Canceling) ∧
      (c2wmap.filter fun p => decide (postUpd 0 p.2 = EventStatus.Running)).length ≤ 1) ∧
    (((sweep 0 c2wjobs c2wmap).evmap.filter fun q => q.2.status.is_active).length ≤ 1 ∧
      ((sweep 0 c2wjobs c2wmap).triggered ≠ [] →
        ∀ p ∈ c2wmap, (lookupId c2wjobs p.1).isSome = true →
          postUpd 0 p.2 ≠ EventStatus.Running) ∧
      (sweep 0 c2wjobs c2wmap).triggered.length ≤ 1) :=
  ⟨⟨by decide, by decide, by decide⟩,
    c2_sweep_at_most_one_active 0 c2wjobs c2wmap (by decide) (by decide) (by decide)⟩

/-- C3: when an event's `_update` runs past its deadline
(`now - start_time > max_time`), an event whose `update` leaves it `running`
is cancelled, its status is set to `failed`, and the message
`"Failed to complete within the time limit"` is appended to the job log; and
whatever `update` does, after such a call the event is never left `running`
(so no event stays `running` longer than `max_time` plus one sweep period). -/
theorem c3_update_enforces_max_time (now t : ℚ) (e : Ev)
    (hst : e.start_time = some t)
    (hlate : e.max_time < now - t) :
    ((e.status = EventStatus.Running ∧
        e.updFn EventStatus.Running = EventStatus.Running) →
      ((Ev.runUpdate now e).1.status = EventStatus.Failed ∧
       (Ev.runUpdate now e).1.cancelled = true ∧
       (Ev.runUpdate now e).2 = ["Failed to complete within the time limit"])) ∧
    (Ev.runUpdate now e).1.status ≠ EventStatus.Running := by
  constructor
  · rintro ⟨hrun, hupd⟩
    simp only [Ev.runUpdate, Ev.runCancel, hrun, hupd, hst, hlate]
    simp
  · by_cases hdone : e.status = EventStatus.Failed ∨ e.status = EventStatus.Finished
    · simp only [Ev.runUpdate, if_pos hdone]
      rcases hdone with h | h <;> simp [h]
    · simp only [Ev.runUpdate, if_neg hdone]
      by_cases hrun2 : e.updFn e.status = EventStatus.Running
      · simp only [hrun2, hst]
        simp [Ev.runCancel, hlate, hrun2]
      · simp [hrun2]

/-- Witness event for C3: running since `t = 0`, `max_time = 5`, polled at
`now = 10`, with `update` a no-op (the exposure has not completed). -/
def c3ev : Ev :=
  { job_id := "T", priority := 0, max_time := 5, start_time := some 0,
    status := EventStatus.Running,
    updFn := fun s => s,
    trigFn := fun s => s,
    cancelFn := fun _ => EventStatus.Failed,
    cancelled := false }

/-- Witness for C3 at the concrete overdue running event `c3ev`. -/
theorem c3_update_enforces_max_time_witness :
    (c3ev.start_time = some 0 ∧ c3ev.max_time < 10 - 0) ∧
    (((c3ev.status = EventStatus.Running ∧
        c3ev.updFn EventStatus.Running = EventStatus.Running) →
      ((Ev.runUpdate 10 c3ev).1.status = EventStatus.Failed ∧
       (Ev.runUpdate 10 c3ev).1.cancelled = true ∧
       (Ev.runUpdate 10 c3ev).2 = ["Failed to complete within the time limit"])) ∧
     (Ev.runUpdate 10 c3ev).1.status ≠ EventStatus.Running) :=
  ⟨⟨rfl, by norm_num [c3ev]⟩,
    c3_update_enforces_max_time 10 0 c3ev rfl (by norm_num [c3ev])⟩

namespace Contindi

/-! ### Series events (`events/base.py` lines 165-199)

`SeriesEvent.update` calls the raw subclass `update` of the current sub-event
(not `_update`), mirrors its status, and while the current sub-event is
`finished` and a next one exists, advances the cursor, `_trigger`s the next
sub-event and updates it.  Sub-events are modelled like `Ev`, with oracle
`update`/`trigger` dynamics; `triggered` instruments whether the sub-event's
`trigger` was ever invoked. -/

structure SubEv where
  status : EventStatus
  updFn : EventStatus → EventStatus
  trigFn : EventStatus → EventStatus
  triggered : Bool

/-- Default sub-event used by out-of-range reads (never reached on the
wellformed domain `current < event_list.length`). -/
def subDflt : SubEv :=
  { status := EventStatus.NotReady, updFn := fun s => s, trigFn := fun s => s,
    triggered := false }

/-- The raw subclass `update` call `self._event.update(cxn, cache)`. -/
def SubEv.runUpd (s : SubEv) : SubEv := { s with status := s.updFn s.status }

/-- `Event._trigger` on a sub-event (`events/base.py` lines 128-138): fires
only when the sub-event is `Ready`. -/
def SubEv.runTrig (s : SubEv) : SubEv :=
  if s.status = EventStatus.Ready then
    { s with triggered := true, status := s.trigFn EventStatus.Ready }
  else s

/-- `SeriesEvent` state: ordered sub-event list, cursor, mirrored status. -/
structure SeriesEv where
  event_list : List SubEv
  current : Nat
  status : EventStatus

/-- Element read `self.event_list[self.current]`. -/
def getAt (l : List SubEv) (i : Nat) : SubEv := l.getD i subDflt

/-- In-place mutation of the sub-event at one index. -/
def updAt (f : SubEv → SubEv) : Nat → List SubEv → List SubEv
  | _, [] => []
  | 0, x :: xs => f x :: xs
  | i + 1, x :: xs => x :: updAt f i xs

/-- One pass of the body of the `while` loop in `SeriesEvent.update` after
the length check: advance the cursor, `_trigger` the new current sub-event
(`SeriesEvent._trigger` calls `self._event._trigger`), update it, mirror. -/
def seriesAdvance (s : SeriesEv) : SeriesEv :=
  let c := s.current + 1
  let l1 := updAt SubEv.runTrig c s.event_list
  let l2 := updAt SubEv.runUpd c l1
  { event_list := l2, current := c, status := (getAt l2 c).status }

/-- The `while self.status == Finished` loop of `SeriesEvent.update`
(`events/base.py` lines 193-199), with fuel (the loop advances the cursor at
every pass, so `event_list.length` passes suffice). -/
def seriesLoop : Nat → SeriesEv → SeriesEv
  | 0, s => s
  | fuel + 1, s =>
    if s.status = EventStatus.Finished then
      if s.event_list.length = s.current + 1 then s
      else seriesLoop fuel (seriesAdvance s)
    else s

/-- `SeriesEvent.update` (`events/base.py` lines 190-199). -/
def SeriesEv.update (s : SeriesEv) : SeriesEv :=
  let l1 := updAt SubEv.runUpd s.current s.event_list
  seriesLoop s.event_list.length
    { event_list := l1, current := s.current, status := (getAt l1 s.current).status }

theorem length_updAt (f : SubEv → SubEv) :
    ∀ (i : Nat) (l : List SubEv), (updAt f i l).length = l.length := by
  intro i l
  induction l generalizing i with
  | nil => cases i <;> rfl
  | cons x xs ih =>
    cases i with
    | zero => rfl
    | succ j => simp [updAt, ih j]

theorem getAt_updAt_ne (f : SubEv → SubEv) :
    ∀ (i j : Nat) (l : List SubEv), j ≠ i → getAt (updAt f i l) j = getAt l j := by
  intro i j l
  induction l generalizing i j with
  | nil => intro _; cases i <;> rfl
  | cons x xs ih =>
    intro hne
    cases i with
    | zero =>
      cases j with
      | zero => exact absurd rfl hne
      | succ j2 => rfl
    | succ i2 =>
      cases j with
      | zero => rfl
      | succ j2 =>
        simp only [updAt, getAt, List.getD_cons_succ]
        exact ih i2 j2 fun h => hne (by rw [h])

theorem getAt_updAt_self (f : SubEv → SubEv) :
    ∀ (i : Nat) (l : List SubEv), i < l.length →
      getAt (updAt f i l) i = f (getAt l i) := by
  intro i l
  induction l generalizing i with
  | nil => intro h; cases h
  | cons x xs ih =>
    intro h
    cases i with
    | zero => rfl
    | succ i2 =>
      simp only [updAt, getAt, List.getD_cons_succ]
      exact ih i2 (Nat.lt_of_succ_lt_succ h)

end Contindi

namespace Contindi

theorem seriesLoop_spec (l0 : List SubEv) :
    ∀ (fuel : Nat) (s : SeriesEv),
      s.event_list.length = l0.length →
      s.current < l0.length →
      (∀ i, i < s.current → (getAt s.event_list i).status = EventStatus.Finished) →
      (∀ j, s.current < j → getAt s.event_list j = getAt l0 j) →
      s.status = (getAt s.event_list s.current).status →
      l0.length ≤ fuel + s.current + 1 →
      (seriesLoop fuel s).event_list.length = l0.length ∧
      s.current ≤ (seriesLoop fuel s).current ∧
      (seriesLoop fuel s).current < l0.length ∧
      (∀ i, i < (seriesLoop fuel s).current →
        (getAt (seriesLoop fuel s).event_list i).status = EventStatus.Finished) ∧
      (∀ j, (seriesLoop fuel s).current < j →
        getAt (seriesLoop fuel s).event_list j = getAt l0 j) ∧
      (seriesLoop fuel s).status
        = (getAt (seriesLoop fuel s).event_list (seriesLoop fuel s).current).status ∧
      ((seriesLoop fuel s).status = EventStatus.Finished →
        (seriesLoop fuel s).current + 1 = l0.length) := by
  intro fuel
  induction fuel with
  | zero =>
    intro s hlen hcur hpre hbeyond hmir hfuel
    simp only [seriesLoop]
    refine ⟨hlen, Nat.le_refl _, hcur, hpre, hbeyond, hmir, ?_⟩
    intro _
    omega
  | succ fuel ih =>
    intro s hlen hcur hpre hbeyond hmir hfuel
    by_cases hfin : s.status = EventStatus.Finished
    · by_cases hlast : s.event_list.length = s.current + 1
      · simp only [seriesLoop, if_pos hfin, if_pos hlast]
        refine ⟨hlen, Nat.le_refl _, hcur, hpre, hbeyond, hmir, ?_⟩
        intro _
        omega
      · simp only [seriesLoop, if_pos hfin, if_neg hlast]
        have hcur1 : s.current + 1 < l0.length := by omega
        have hlen1 : (seriesAdvance s).event_list.length = l0.length := by
          simp [seriesAdvance, length_updAt, hlen]
        have hcur1a : (seriesAdvance s).current = s.current + 1 := rfl
        have hpre1 : ∀ i, i < (seriesAdvance s).current →
            (getAt (seriesAdvance s).event_list i).status = EventStatus.Finished := by
          intro i hi
          rw [hcur1a] at hi
          have hne : i ≠ s.current + 1 := by omega
          have : getAt (seriesAdvance s).event_list i = getAt s.event_list i := by
            simp only [seriesAdvance]
            rw [getAt_updAt_ne _ _ _ _ hne, getAt_updAt_ne _ _ _ _ hne]
          rw [this]
          rcases Nat.lt_or_ge i s.current with h | h
          · exact hpre i h
          · have : i = s.current := by omega
            rw [this, ← hmir]
            exact hfin
        have hbeyond1 : ∀ j, (seriesAdvance s).current < j →
            getAt (seriesAdvance s).event_list j = getAt l0 j := by
          intro j hj
          rw [hcur1a] at hj
          have hne : j ≠ s.current + 1 := by omega
          have h1 : getAt (seriesAdvance s).event_list j = getAt s.event_list j := by
            simp only [seriesAdvance]
            rw [getAt_updAt_ne _ _ _ _ hne, getAt_updAt_ne _ _ _ _ hne]
          rw [h1]
          exact hbeyond j (by omega)
        have hmir1 : (seriesAdvance s).status
            = (getAt (seriesAdvance s).event_list (seriesAdvance s).current).status := rfl
        have hfuel1 : l0.length ≤ fuel + (seriesAdvance s).current + 1 := by
          rw [hcur1a]
          omega
        obtain ⟨h1, h2, h3, h4, h5, h6, h7⟩ :=
          ih (seriesAdvance s) hlen1 (by rw [hcur1a]; exact hcur1)
            hpre1 hbeyond1 hmir1 hfuel1
        rw [hcur1a] at h2
        exact ⟨h1, by omega, h3, h4, h5, h6, h7⟩
    · simp only [seriesLoop, if_neg hfin]
      refine ⟨hlen, Nat.le_refl _, hcur, hpre, hbeyond, hmir, fun h => absurd h hfin⟩

end Contindi

/-- C4: for a series over sub-events `[e1, …, en]` with a wellformed cursor
(every sub-event before the cursor already `finished`), one
`SeriesEvent.update` call preserves the sub-event list length and
establishes: the series status equals its current sub-event's status (so the
series is `running` iff its current sub-event is `running`); if the series is
`finished` then the cursor reached the last index and every sub-event is
`finished` (having been passed in index order); and every sub-event beyond
the cursor — in particular beyond a `failed` current sub-event — is exactly
unchanged, so it was never triggered. -/
theorem c4_series_invariants (s : SeriesEv)
    (hcur : s.current < s.event_list.length)
    (hpre : ∀ i, i < s.current → (getAt s.event_list i).status = EventStatus.Finished) :
    s.update.event_list.length = s.event_list.length ∧
    s.update.status = (getAt s.update.event_list s.update.current).status ∧
    (s.update.status = EventStatus.Finished →
      s.update.current + 1 = s.event_list.length ∧
      ∀ i, i < s.event_list.length →
        (getAt s.update.event_list i).status = EventStatus.Finished) ∧
    (∀ j, s.update.current < j → getAt s.update.event_list j = getAt s.event_list j) := by
  have hdef : s.update = seriesLoop s.event_list.length
      { event_list := updAt SubEv.runUpd s.current s.event_list, current := s.current,
        status := (getAt (updAt SubEv.runUpd s.current s.event_list) s.current).status } :=
    rfl
  obtain ⟨h1, h2, h3, h4, h5, h6, h7⟩ :=
    seriesLoop_spec s.event_list s.event_list.length
      { event_list := updAt SubEv.runUpd s.current s.event_list, current := s.current,
        status := (getAt (updAt SubEv.runUpd s.current s.event_list) s.current).status }
      (length_updAt _ _ _) hcur
      (by
        intro i hi
        rw [getAt_updAt_ne _ _ _ _ (Nat.ne_of_lt hi)]
        exact hpre i hi)
      (by
        intro j hj
        rw [getAt_updAt_ne _ _ _ _ (Nat.ne_of_gt hj)])
      rfl
      (by omega)
  rw [hdef]
  refine ⟨h1, h6, ?_, h5⟩
  intro hfin
  refine ⟨h7 hfin, ?_⟩
  intro i hi
  have hlast := h7 hfin
  rcases Nat.lt_or_ge i (seriesLoop s.event_list.length
      { event_list := updAt SubEv.runUpd s.current s.event_list, current := s.current,
        status := (getAt (updAt SubEv.runUpd s.current s.event_list) s.current).status
      }).current with h | h
  · exact h4 i h
  · have : i = (seriesLoop s.event_list.length
        { event_list := updAt SubEv.runUpd s.current s.event_list, current := s.current,
          status := (getAt (updAt SubEv.runUpd s.current s.event_list) s.current).status
        }).current := by omega
    rw [this, ← h6]
    exact hfin

/-- Witness sub-events for C4, the shape of scenario S5: the current
sub-event is running and its update fails it; the second sub-event is ready
and untriggered. -/
def c4sub0 : SubEv :=
  { status := EventStatus.Running,
    updFn := fun s => if s = EventStatus.Running then EventStatus.Failed else s,
    trigFn := fun s => s, triggered := true }

/-- Second witness sub-event for C4 (a capture that must never start). -/
def c4sub1 : SubEv :=
  { status := EventStatus.Ready, updFn := fun s => s,
    trigFn := fun _ => EventStatus.Running, triggered := false }

/-- Witness series for C4. -/
def c4series : SeriesEv :=
  { event_list := [c4sub0, c4sub1], current := 0, status := EventStatus.Running }

/-- Witness for C4 at the concrete series `c4series`. -/
theorem c4_series_invariants_witness :
    (c4series.current < c4series.event_list.length ∧
      (∀ i, i < c4series.current →
        (getAt c4series.event_list i).status = EventStatus.Finished)) ∧
    (c4series.update.event_list.length = c4series.event_list.length ∧
     c4series.update.status
       = (getAt c4series.update.event_list c4series.update.current).status ∧
     (c4series.update.status = EventStatus.Finished →
       c4series.update.current + 1 = c4series.event_list.length ∧
       ∀ i, i < c4series.event_list.length →
         (getAt c4series.update.event_list i).status = EventStatus.Finished) ∧
     (∀ j, c4series.update.current < j →
       getAt c4series.update.event_list j = getAt c4series.event_list j)) :=
  ⟨⟨by decide, fun i h => absurd h (Nat.not_lt_zero i)⟩,
    c4_series_invariants c4series (by decide) (fun i h => absurd h (Nat.not_lt_zero i))⟩

namespace Contindi

/-! ### Switch vectors (`switch.py`)

Element bodies arrive as already-parsed `SwitchState`s
(`SwitchState[elem.text.strip()]` in `update_from_xml`). -/

/-- `SwitchRule`, `switch.py` lines 11-14. -/
inductive SwitchRule where
  | OneOfMany
  | AtMostOne
  | AnyOfMany
deriving DecidableEq, Repr

/-- `SwitchState`, `switch.py` lines 27-29. -/
inductive SwitchState where
  | On
  | Off
deriving DecidableEq, Repr

/-- `SwitchElement`, `switch.py` lines 40-44. -/
structure SwitchElement where
  name : String
  label : String
  value : SwitchState
deriving DecidableEq, Repr

/-- `SwitchVector` (`switch.py` lines 47-50) with the `GenericVector`
attributes the model needs; `elements` is the insertion-ordered element
dict. -/
structure SwitchVector where
  device : String
  name : String
  rule : SwitchRule
  elements : List SwitchElement
deriving DecidableEq, Repr

/-- One `oneSwitch` assignment of `SwitchVector.update_from_xml`
(`switch.py` lines 118-128): set the named element, and if it was set `On`
under a `one-of-many` or `at-most-one` rule, force every other element
`Off`. -/
def applyOne (v : SwitchVector) (a : String × SwitchState) : SwitchVector :=
  let elems := v.elements.map fun e => if e.name = a.1 then { e with value := a.2 } else e
  if a.2 = SwitchState.On ∧ (v.rule = SwitchRule.OneOfMany ∨ v.rule = SwitchRule.AtMostOne)
  then
    { v with elements := elems.map fun e =>
        if e.name ≠ a.1 then { e with value := SwitchState.Off } else e }
  else { v with elements := elems }

/-- `SwitchVector.update_from_xml` (`switch.py` lines 113-129) over the
`oneSwitch` children of a `setSwitchVector` element, in document order. -/
def SwitchVector.update_from_xml (v : SwitchVector)
    (upd : List (String × SwitchState)) : SwitchVector :=
  upd.foldl applyOne v

/-- Number of elements currently `On`. -/
def countOn (v : SwitchVector) : Nat :=
  (v.elements.filter fun e => decide (e.value = SwitchState.On)).length

/-- "Exactly the element named `n` is on". -/
def InvOn (n : String) (v : SwitchVector) : Prop :=
  ∀ e ∈ v.elements, (e.value = SwitchState.On ↔ e.name = n)

theorem map_name_of_namefix (f : SwitchElement → SwitchElement)
    (hf : ∀ e, (f e).name = e.name) :
    ∀ l : List SwitchElement,
      (l.map f).map SwitchElement.name = l.map SwitchElement.name := by
  intro l
  induction l with
  | nil => rfl
  | cons e es ih => simp only [List.map_cons, ih, hf]

theorem applyOne_names (v : SwitchVector) (a : String × SwitchState) :
    (applyOne v a).elements.map SwitchElement.name
      = v.elements.map SwitchElement.name := by
  unfold applyOne
  split
  · show ((v.elements.map fun e => if e.name = a.1 then { e with value := a.2 } else e).map
        fun e => if e.name ≠ a.1 then { e with value := SwitchState.Off } else e).map
          SwitchElement.name = v.elements.map SwitchElement.name
    rw [map_name_of_namefix _ (by intro e; split <;> rfl),
      map_name_of_namefix _ (by intro e; split <;> rfl)]
  · show (v.elements.map fun e =>
        if e.name = a.1 then { e with value := a.2 } else e).map SwitchElement.name
      = v.elements.map SwitchElement.name
    rw [map_name_of_namefix _ (by intro e; split <;> rfl)]

theorem applyOne_rule (v : SwitchVector) (a : String × SwitchState) :
    (applyOne v a).rule = v.rule := by
  unfold applyOne
  split <;> rfl

theorem applyOne_on_inv (v : SwitchVector) (a : String × SwitchState)
    (ha : a.2 = SwitchState.On)
    (hrule : v.rule = SwitchRule.OneOfMany ∨ v.rule = SwitchRule.AtMostOne) :
    InvOn a.1 (applyOne v a) := by
  intro e he
  unfold applyOne at he
  rw [if_pos ⟨ha, hrule⟩] at he
  simp only [List.map_map, List.mem_map] at he
  obtain ⟨e0, _, rfl⟩ := he
  by_cases hn : e0.name = a.1
  · simp [hn, ha]
  · simp [hn]

theorem applyOne_off_inv (v : SwitchVector) (b : String × SwitchState) (n : String)
    (hb : b.2 = SwitchState.Off) (hne : b.1 ≠ n) (hinv : InvOn n v) :
    InvOn n (applyOne v b) := by
  intro e he
  unfold applyOne at he
  rw [if_neg (by rw [hb]; simp)] at he
  simp only [List.mem_map] at he
  obtain ⟨e0, he0, rfl⟩ := he
  by_cases hn : e0.name = b.1
  · simp only [hn, if_pos rfl, hb]
    constructor
    · intro h
      cases h
    · intro h
      exact absurd (hn ▸ h : b.1 = n) hne
  · rw [if_neg hn]
    exact hinv e0 he0

theorem fold_off_inv (n : String) :
    ∀ (rest : List (String × SwitchState)) (v : SwitchVector),
      (∀ b ∈ rest, b.2 = SwitchState.Off ∧ b.1 ≠ n) → InvOn n v →
      InvOn n (rest.foldl applyOne v) := by
  intro rest
  induction rest with
  | nil => intro v _ hv; exact hv
  | cons b bs ih =>
    intro v hall hv
    rw [List.foldl_cons]
    refine ih _ (fun x hx => hall x (List.mem_cons_of_mem b hx)) ?_
    obtain ⟨hb, hbn⟩ := hall b (List.mem_cons_self b bs)
    exact applyOne_off_inv v b n hb hbn hv

theorem filter_name_len (n : String) :
    ∀ l : List SwitchElement, (l.map SwitchElement.name).Nodup →
      n ∈ l.map SwitchElement.name →
      (l.filter fun e => decide (e.name = n)).length = 1 := by
  intro l
  induction l with
  | nil => intro _ h; cases h
  | cons e es ih =>
    intro hnd hmem
    simp only [List.map_cons, List.nodup_cons] at hnd
    rw [List.filter_cons]
    rw [List.map_cons] at hmem
    by_cases hn : e.name = n
    · have hnone : es.filter (fun e => decide (e.name = n)) = [] := by
        rw [List.filter_eq_nil_iff]
        intro x hx
        simp only [decide_eq_true_eq]
        intro hxn
        refine hnd.1 ?_
        rw [hn, ← hxn]
        exact List.mem_map_of_mem SwitchElement.name hx
      simp [hn, hnone]
    · have hmem2 : n ∈ es.map SwitchElement.name := by
        rcases List.mem_cons.mp hmem with h | h
        · exact absurd h.symm hn
        · exact h
      simp only [decide_eq_true_eq]
      rw [if_neg hn]
      exact ih hnd.2 hmem2

theorem countOn_of_inv (n : String) (v : SwitchVector) (hinv : InvOn n v)
    (hnd : (v.elements.map SwitchElement.name).Nodup)
    (hmem : n ∈ v.elements.map SwitchElement.name) : countOn v = 1 := by
  unfold countOn
  have hco : v.elements.filter (fun e => decide (e.value = SwitchState.On))
      = v.elements.filter (fun e => decide (e.name = n)) := by
    apply List.filter_congr
    intro e he
    simp only [decide_eq_decide]
    exact hinv e he
  rw [hco]
  exact filter_name_len n v.elements hnd hmem

end Contindi

namespace Contindi

theorem fold_names (upd : List (String × SwitchState)) :
    ∀ v : SwitchVector,
      (upd.foldl applyOne v).elements.map SwitchElement.name
        = v.elements.map SwitchElement.name := by
  induction upd with
  | nil => intro v; rfl
  | cons a rest ih =>
    intro v
    rw [List.foldl_cons, ih, applyOne_names]

theorem c5_exact (upd : List (String × SwitchState)) :
    ∀ v : SwitchVector,
      (v.rule = SwitchRule.OneOfMany ∨ v.rule = SwitchRule.AtMostOne) →
      (v.elements.map SwitchElement.name).Nodup →
      (upd.map Prod.fst).Nodup →
      (∀ a ∈ upd, a.1 ∈ v.elements.map SwitchElement.name) →
      (∃ a ∈ upd, a.2 = SwitchState.On) →
      countOn (upd.foldl applyOne v) = 1 := by
  induction upd with
  | nil =>
    rintro v _ _ _ _ ⟨a, ha, _⟩
    cases ha
  | cons a rest ih =>
    intro v hrule hnd hndu hsub hex
    rw [List.foldl_cons]
    have hnames1 := applyOne_names v a
    have hrule1 := applyOne_rule v a
    simp only [List.map_cons, List.nodup_cons] at hndu
    rcases hcase : a.2 with _ | _
    · by_cases hrest : ∃ b ∈ rest, b.2 = SwitchState.On
      · refine ih (applyOne v a) ?_ ?_ hndu.2 ?_ hrest
        · rw [hrule1]; exact hrule
        · rw [hnames1]; exact hnd
        · intro b hb
          rw [hnames1]
          exact hsub b (List.mem_cons_of_mem a hb)
      · have hinv : InvOn a.1 (applyOne v a) := applyOne_on_inv v a hcase hrule
        push_neg at hrest
        have hall : ∀ b ∈ rest, b.2 = SwitchState.Off ∧ b.1 ≠ a.1 := by
          intro b hb
          constructor
          · rcases hb2 : b.2 with _ | _
            · exact absurd hb2 (hrest b hb)
            · rfl
          · intro hb1
            exact hndu.1 (hb1 ▸ List.mem_map_of_mem Prod.fst hb)
        have hinv2 := fold_off_inv a.1 rest (applyOne v a) hall hinv
        refine countOn_of_inv a.1 _ hinv2 ?_ ?_
        · rw [fold_names, hnames1]
          exact hnd
        · rw [fold_names, hnames1]
          exact hsub a (List.mem_cons_self a rest)
    · obtain ⟨b, hb, hbOn⟩ := hex
      rcases List.mem_cons.mp hb with h | h
      · rw [← h] at hcase
        rw [hcase] at hbOn
        cases hbOn
      · refine ih (applyOne v a) ?_ ?_ hndu.2 ?_ ⟨b, h, hbOn⟩
        · rw [hrule1]; exact hrule
        · rw [hnames1]; exact hnd
        · intro c hc
          rw [hnames1]
          exact hsub c (List.mem_cons_of_mem a hc)

theorem c5_shrink (upd : List (String × SwitchState)) :
    ∀ v : SwitchVector, (∀ a ∈ upd, a.2 = SwitchState.Off) →
      ∀ e ∈ (upd.foldl applyOne v).elements, e.value = SwitchState.On →
        ∃ e0 ∈ v.elements, e0.name = e.name ∧ e0.value = SwitchState.On := by
  induction upd with
  | nil =>
    intro v _ e he hon
    exact ⟨e, he, rfl, hon⟩
  | cons a rest ih =>
    intro v hall e he hon
    rw [List.foldl_cons] at he
    obtain ⟨e1, he1, hname, hval⟩ :=
      ih (applyOne v a) (fun b hb => hall b (List.mem_cons_of_mem a hb)) e he hon
    have ha := hall a (List.mem_cons_self a rest)
    unfold applyOne at he1
    rw [if_neg (by rw [ha]; simp)] at he1
    simp only [List.mem_map] at he1
    obtain ⟨e0, he0, rfl⟩ := he1
    by_cases hn : e0.name = a.1
    · rw [if_pos hn] at hval
      have h2 : a.2 = SwitchState.On := hval
      rw [ha] at h2
      cases h2
    · rw [if_neg hn] at hval hname
      exact ⟨e0, he0, hname, hval⟩

end Contindi

/-- C5 (amended): applying a `setSwitchVector` whose `oneSwitch` assignments
have distinct names naming existing elements to a vector whose rule is
`one-of-many` or `at-most-one` leaves exactly one element `On` whenever the
update assigns `On` to some element; when the update only assigns `Off`,
every element `On` afterwards was already `On` before, so the `On` count
cannot grow — and, as the counterexample shows, a `one-of-many` vector can be
left with zero `On` elements. -/
theorem c5_switch_rule_after_update (v : SwitchVector)
    (upd : List (String × SwitchState))
    (hrule : v.rule = SwitchRule.OneOfMany ∨ v.rule = SwitchRule.AtMostOne)
    (hnd : (v.elements.map SwitchElement.name).Nodup)
    (hndu : (upd.map Prod.fst).Nodup)
    (hsub : ∀ a ∈ upd, a.1 ∈ v.elements.map SwitchElement.name) :
    ((∃ a ∈ upd, a.2 = SwitchState.On) →
      countOn (v.update_from_xml upd) = 1) ∧
    ((∀ a ∈ upd, a.2 = SwitchState.Off) →
      ∀ e ∈ (v.update_from_xml upd).elements, e.value = SwitchState.On →
        ∃ e0 ∈ v.elements, e0.name = e.name ∧ e0.value = SwitchState.On) :=
  ⟨fun hex => c5_exact upd v hrule hnd hndu hsub hex,
   fun hall => c5_shrink upd v hall⟩

/-- The `one-of-many` vector of scenario S2 with `A=On, B=Off, C=Off`. -/
def c5vec : SwitchVector :=
  { device := "d", name := "sw", rule := SwitchRule.OneOfMany,
    elements := [{ name := "A", label := "A", value := SwitchState.On },
                 { name := "B", label := "B", value := SwitchState.Off },
                 { name := "C", label := "C", value := SwitchState.Off }] }

/-- C5 counterexample: the claim as stated is false.  `c5vec` is a
`one-of-many` vector with exactly one element `On`; applying the
`setSwitchVector` update `[A=Off]` (a perfectly legal wire message) leaves
zero elements `On`, not exactly one — `update_from_xml` forces other
elements only when some element is set `On`. -/
theorem c5_counterexample :
    c5vec.rule = SwitchRule.OneOfMany ∧ countOn c5vec = 1 ∧
    countOn (c5vec.update_from_xml [("A", SwitchState.Off)]) = 0 := by
  decide

/-- Witness for C5 (amended) at the echo of scenario S2: applying `[B=On]`
to `c5vec` leaves exactly `B` on. -/
theorem c5_switch_rule_after_update_witness :
    ((c5vec.rule = SwitchRule.OneOfMany ∨ c5vec.rule = SwitchRule.AtMostOne) ∧
      (c5vec.elements.map SwitchElement.name).Nodup ∧
      ([("B", SwitchState.On)].map Prod.fst).Nodup ∧
      (∀ a ∈ [("B", SwitchState.On)], a.1 ∈ c5vec.elements.map SwitchElement.name)) ∧
    (((∃ a ∈ [("B", SwitchState.On)], a.2 = SwitchState.On) →
        countOn (c5vec.update_from_xml [("B", SwitchState.On)]) = 1) ∧
      ((∀ a ∈ [("B", SwitchState.On)], a.2 = SwitchState.Off) →
        ∀ e ∈ (c5vec.update_from_xml [("B", SwitchState.On)]).elements,
          e.value = SwitchState.On →
          ∃ e0 ∈ c5vec.elements, e0.name = e.name ∧ e0.value = SwitchState.On)) :=
  ⟨⟨by decide, by decide, by decide, by decide⟩,
    c5_switch_rule_after_update c5vec [("B", SwitchState.On)]
      (by decide) (by decide) (by decide) (by decide)⟩

namespace Contindi

/-! ### Generic vector mutation building (`base.py` lines 132-151)

Requested values are modelled as strings (switch/text bodies); a python dict
is an insertion-ordered association list with unique keys, `dict.update`
overrides existing keys in place and appends new keys in order. -/

/-- `d[k] = val` on a python dict. -/
def dictSet (d : List (String × String)) (k : String) (val : String) :
    List (String × String) :=
  if (lookupId d k).isSome then
    d.map fun p => if p.1 = k then (p.1, val) else p
  else d ++ [(k, val)]

/-- `d.update(kvs)` on a python dict. -/
def dictUpdate (d : List (String × String)) (kvs : List (String × String)) :
    List (String × String) :=
  kvs.foldl (fun d p => dictSet d p.1 p.2) d

/-- `GenericVector.create_xml_command` (`base.py` lines 132-151): positional
args must number exactly the elements (unless there are none), keyword names
must name existing elements, and keyword values override the positional
assignment. -/
def GenericVector.create_xml_command (elemNames : List String)
    (args : List String) (kwargs : List (String × String)) :
    Except String (List (String × String)) :=
  if elemNames.length = args.length then
    if kwargs.all fun p => decide (p.1 ∈ elemNames) then
      Except.ok (dictUpdate (elemNames.zip args) kwargs)
    else
      Except.error "Provided element name (%s) is not present in this parameter (%s)."
  else if args.length ≠ 0 then
    Except.error
      "If arg based setting is used, the number of args must exactly match the number of elements. %s"
  else
    if kwargs.all fun p => decide (p.1 ∈ elemNames) then
      Except.ok (dictUpdate [] kwargs)
    else
      Except.error "Provided element name (%s) is not present in this parameter (%s)."

theorem lookupId_map_set (k val x : String) :
    ∀ d : List (String × String),
      lookupId (d.map fun p => if p.1 = k then (p.1, val) else p) x
        = if x = k then (lookupId d k).map (fun _ => val) else lookupId d x := by
  intro d
  induction d with
  | nil =>
    simp only [List.map_nil, lookupId]
    split <;> rfl
  | cons p ps ih =>
    simp only [List.map_cons, lookupId]
    have hfst : (if p.1 = k then (p.1, val) else p).1 = p.1 := by split <;> rfl
    rw [hfst]
    by_cases hpx : p.1 = x
    · rw [if_pos hpx]
      by_cases hxk : x = k
      · rw [if_pos hxk, if_pos (by rw [hpx, hxk]), if_pos (by rw [hpx, hxk])]
        rfl
      · rw [if_neg hxk, if_neg (by rw [hpx]; exact hxk)]
        show _ = lookupId (p :: ps) x
        simp only [lookupId]
        rw [if_pos hpx]
    · rw [if_neg hpx, ih]
      by_cases hxk : x = k
      · rw [if_pos hxk, if_pos hxk]
        have hpk : ¬ p.1 = k := by rw [← hxk]; exact hpx
        show Option.map _ (lookupId ps k) = Option.map _ (lookupId (p :: ps) k)
        simp only [lookupId]
        rw [if_neg hpk]
      · rw [if_neg hxk, if_neg hxk]
        show lookupId ps x = lookupId (p :: ps) x
        simp only [lookupId]
        rw [if_neg hpx]

theorem lookupId_append_absent (k val x : String) :
    ∀ d : List (String × String), (lookupId d k).isSome = false →
      lookupId (d ++ [(k, val)]) x = if x = k then some val else lookupId d x := by
  intro d
  induction d with
  | nil =>
    intro _
    simp only [List.nil_append, lookupId]
    by_cases hxk : x = k
    · rw [if_pos (by rw [hxk]), if_pos hxk]
    · rw [if_neg (fun h => hxk h.symm), if_neg hxk]
  | cons p ps ih =>
    intro hnone
    simp only [lookupId] at hnone
    by_cases hpk : p.1 = k
    · rw [if_pos hpk] at hnone
      simp at hnone
    · rw [if_neg hpk] at hnone
      simp only [List.cons_append, lookupId]
      by_cases hpx : p.1 = x
      · rw [if_pos hpx, if_pos hpx]
        by_cases hxk : x = k
        · exact absurd (by rw [hpx, hxk] : p.1 = k) hpk
        · rw [if_neg hxk]
      · rw [if_neg hpx, if_neg hpx]
        exact ih hnone

theorem lookupId_dictSet (d : List (String × String)) (k val x : String) :
    lookupId (dictSet d k val) x = if x = k then some val else lookupId d x := by
  unfold dictSet
  split
  · rename_i hsome
    rw [lookupId_map_set]
    by_cases hxk : x = k
    · rw [if_pos hxk, if_pos hxk]
      obtain ⟨v, hv⟩ := Option.isSome_iff_exists.mp hsome
      rw [hv]
      rfl
    · rw [if_neg hxk, if_neg hxk]
  · rename_i hnone
    exact lookupId_append_absent k val x d (by simpa using hnone)

end Contindi

namespace Contindi

theorem lookupId_none_of_not_mem (x : String) :
    ∀ l : List (String × String), x ∉ l.map Prod.fst → lookupId l x = none := by
  intro l
  induction l with
  | nil => intro _; rfl
  | cons p ps ih =>
    intro h
    rw [List.map_cons] at h
    simp only [lookupId]
    rw [if_neg (fun hp : p.1 = x => h (hp ▸ List.mem_cons_self p.1 (ps.map Prod.fst)))]
    exact ih fun hm => h (List.mem_cons_of_mem p.1 hm)

theorem lookupId_dictUpdate (kvs : List (String × String)) :
    ∀ (d : List (String × String)) (x : String), (kvs.map Prod.fst).Nodup →
      lookupId (dictUpdate d kvs) x
        = (lookupId kvs x).elim (lookupId d x) some := by
  induction kvs with
  | nil => intro d x _; rfl
  | cons a rest ih =>
    intro d x hnd
    rw [List.map_cons, List.nodup_cons] at hnd
    show lookupId (dictUpdate (dictSet d a.1 a.2) rest) x = _
    rw [ih _ x hnd.2, lookupId_dictSet]
    by_cases hax : a.1 = x
    · have hrest : lookupId rest x = none :=
        lookupId_none_of_not_mem x rest (fun hm => hnd.1 (hax ▸ hm))
      rw [hrest]
      simp only [Option.elim, lookupId]
      rw [if_pos hax, if_pos (by rw [hax])]
    · have hx : lookupId (a :: rest) x = lookupId rest x := by
        simp only [lookupId]
        rw [if_neg hax]
      rw [hx, if_neg (fun h => hax h.symm)]

theorem getD_mem_of_lt (ns : List String) (i : Nat) (h : i < ns.length) :
    ns.getD i "" ∈ ns := by
  rw [List.getD_eq_getElem?_getD, List.getElem?_eq_getElem h]
  exact List.getElem_mem _

theorem lookupId_zip :
    ∀ (ns : List String) (vals : List String) (i : Nat), ns.Nodup →
      ns.length = vals.length → i < ns.length →
      lookupId (ns.zip vals) (ns.getD i "") = some (vals.getD i "") := by
  intro ns
  induction ns with
  | nil => intro vals i _ _ h; cases h
  | cons n ns2 ih =>
    intro vals i hnd hlen hi
    cases vals with
    | nil => cases hlen
    | cons v vs =>
      rw [List.nodup_cons] at hnd
      cases i with
      | zero => simp [lookupId]
      | succ j =>
        have hj : j < ns2.length := Nat.lt_of_succ_lt_succ hi
        simp only [List.zip_cons_cons, lookupId, List.getD_cons_succ]
        rw [if_neg (fun h : n = ns2.getD j "" => hnd.1 (h ▸ getD_mem_of_lt ns2 j hj))]
        exact ih vs j hnd.2 (Nat.succ_injective hlen) hj

end Contindi

/-- C10: building a mutation through `GenericVector.create_xml_command`
raises when positional values are supplied but their number differs from the
number of elements; raises when a keyword names a missing element; and when
the positional count matches, assigns values to elements in insertion order
with keyword arguments overriding the positional value. -/
theorem c10_create_xml_command (elemNames : List String) (args : List String)
    (kwargs : List (String × String)) :
    (args ≠ [] → args.length ≠ elemNames.length →
      ∃ msg, GenericVector.create_xml_command elemNames args kwargs
        = Except.error msg) ∧
    ((∃ p ∈ kwargs, p.1 ∉ elemNames) →
      ∃ msg, GenericVector.create_xml_command elemNames args kwargs
        = Except.error msg) ∧
    (args.length = elemNames.length → elemNames.Nodup →
      (kwargs.map Prod.fst).Nodup →
      (∀ p ∈ kwargs, p.1 ∈ elemNames) →
      ∀ i, i < elemNames.length →
        ∃ kw, GenericVector.create_xml_command elemNames args kwargs
            = Except.ok kw ∧
          lookupId kw (elemNames.getD i "")
            = some ((lookupId kwargs (elemNames.getD i "")).getD
                (args.getD i ""))) := by
  refine ⟨?_, ?_, ?_⟩
  · intro hne hlen
    unfold GenericVector.create_xml_command
    rw [if_neg (fun h => hlen h.symm)]
    rw [if_pos (by simpa using hne)]
    exact ⟨_, rfl⟩
  · intro ⟨p, hp, hbad⟩
    have hall : (kwargs.all fun p => decide (p.1 ∈ elemNames)) = false := by
      rw [List.all_eq_false]
      exact ⟨p, hp, by simpa using hbad⟩
    unfold GenericVector.create_xml_command
    split
    · rw [hall]
      exact ⟨_, rfl⟩
    · split
      · exact ⟨_, rfl⟩
      · rw [hall]
        exact ⟨_, rfl⟩
  · intro hlen hnd hkwnd hsub i hi
    have hall : (kwargs.all fun p => decide (p.1 ∈ elemNames)) = true := by
      rw [List.all_eq_true]
      intro p hp
      simpa using hsub p hp
    unfold GenericVector.create_xml_command
    rw [if_pos hlen.symm, hall]
    simp only [if_true]
    refine ⟨_, rfl, ?_⟩
    rw [lookupId_dictUpdate kwargs _ _ hkwnd]
    rcases hkx : lookupId kwargs (elemNames.getD i "") with _ | v
    · simp only [Option.elim, Option.getD]
      exact lookupId_zip elemNames args i hnd hlen.symm hi
    · rfl

/-- Witness for C10: the matched positional case (keyword override included)
at both element positions, and the mismatched positional case. -/
theorem c10_create_xml_command_witness :
    ((["1", "2"] : List String).length = (["RA", "DEC"] : List String).length ∧
      (["RA", "DEC"] : List String).Nodup ∧
      ([("DEC", "5")].map Prod.fst).Nodup ∧
      (∀ p ∈ [("DEC", "5")], p.1 ∈ (["RA", "DEC"] : List String)) ∧
      (0 : Nat) < 2 ∧ (1 : Nat) < 2 ∧ (["1"] : List String) ≠ [] ∧
      (["1"] : List String).length ≠ (["RA", "DEC"] : List String).length) ∧
    (∃ kw, GenericVector.create_xml_command ["RA", "DEC"] ["1", "2"] [("DEC", "5")]
        = Except.ok kw ∧
      lookupId kw ((["RA", "DEC"] : List String).getD 0 "")
        = some ((lookupId [("DEC", "5")] ((["RA", "DEC"] : List String).getD 0 "")).getD
            ((["1", "2"] : List String).getD 0 ""))) ∧
    (∃ kw, GenericVector.create_xml_command ["RA", "DEC"] ["1", "2"] [("DEC", "5")]
        = Except.ok kw ∧
      lookupId kw ((["RA", "DEC"] : List String).getD 1 "")
        = some ((lookupId [("DEC", "5")] ((["RA", "DEC"] : List String).getD 1 "")).getD
            ((["1", "2"] : List String).getD 1 ""))) ∧
    (∃ msg, GenericVector.create_xml_command ["RA", "DEC"] ["1"] [("DEC", "5")]
        = Except.error msg) :=
  ⟨⟨by decide, by decide, by decide, by decide, by decide, by decide, by decide, by decide⟩,
    (c10_create_xml_command ["RA", "DEC"] ["1", "2"] [("DEC", "5")]).2.2
      (by decide) (by decide) (by decide) (by decide) 0 (by decide),
    (c10_create_xml_command ["RA", "DEC"] ["1", "2"] [("DEC", "5")]).2.2
      (by decide) (by decide) (by decide) (by decide) 1 (by decide),
    (c10_create_xml_command ["RA", "DEC"] ["1"] [("DEC", "5")]).1
      (by decide) (by decide)⟩

namespace Contindi

/-- `str(x).lower().capitalize()` for ascii payloads (`switch.py` lines 58
and 86). -/
def pyLowerCapitalize (s : String) : String :=
  match s.data with
  | [] => ""
  | c :: rest => ⟨c.toUpper :: rest.map Char.toLower⟩

/-- The outbound `newSwitchVector` element: device/name attributes and one
`oneSwitch` child per element, in order. -/
structure NewSwitchVector where
  device : String
  name : String
  elements : List (String × String)
deriving DecidableEq, Repr

/-- The body loop of `SwitchVector.create_xml_command` (`switch.py` lines
84-90): normalize each value and reject anything that is not `On`/`Off`. -/
def validateSwitch : List (String × String) → Except String (List (String × String))
  | [] => Except.ok []
  | (n, val) :: rest =>
    let nv := pyLowerCapitalize val
    if nv = "On" ∨ nv = "Off" then
      match validateSwitch rest with
      | Except.ok out => Except.ok ((n, nv) :: out)
      | Except.error e => Except.error e
    else Except.error "Switch states must either be On or Off"

/-- The rule-enforcement block of `SwitchVector.create_xml_command`
(`switch.py` lines 54-81): for a single-element request against a
`one-of-many`/`at-most-one` vector, turning one element `On` forces every
other element `Off`; turning one element `Off` in a two-element `one-of-many`
forces the other `On`; `at-most-one` may turn its single element `Off`; any
other single `Off` against `one-of-many` raises `ValueError`. -/
def switchForce (v : SwitchVector) (kw : List (String × String)) :
    Except String (List (String × String)) :=
  if kw.length = 1 ∧ (v.rule = SwitchRule.OneOfMany ∨ v.rule = SwitchRule.AtMostOne)
  then
    -- `set_name`/`new_val` of the source are the key and normalized value of
    -- the single entry, inlined here
    if pyLowerCapitalize (kw.headD ("", "")).2 = "On" then
      Except.ok ((v.elements.map SwitchElement.name).foldl
        (fun d n => if (lookupId d n).isSome then d else d ++ [(n, "Off")]) kw)
    else if v.rule = SwitchRule.OneOfMany ∧ v.elements.length = 2 then
      Except.ok (dictSet kw
        (((v.elements.map SwitchElement.name).filter
          fun n => decide (¬ n = (kw.headD ("", "")).1)).headD "") "On")
    else if v.rule = SwitchRule.AtMostOne then Except.ok kw
    else
      Except.error
        "Setting a single value (%s) Off is ambiguous in this case, as at least one (%s) must be On."
  else Except.ok kw

/-- `SwitchVector.create_xml_command` (`switch.py` lines 52-91): build the
requested element map through the generic builder, enforce the switch rule
for single-element requests, and emit the `oneSwitch` children. -/
def SwitchVector.create_xml_command (v : SwitchVector) (args : List String)
    (kwargs : List (String × String)) : Except String NewSwitchVector :=
  match GenericVector.create_xml_command (v.elements.map SwitchElement.name) args kwargs with
  | Except.error e => Except.error e
  | Except.ok kw =>
    match switchForce v kw with
    | Except.error e => Except.error e
    | Except.ok kw2 =>
      match validateSwitch kw2 with
      | Except.error e => Except.error e
      | Except.ok out => Except.ok { device := v.device, name := v.name, elements := out }

theorem fold_off_append (nm : String) :
    ∀ (names : List String) (acc : List (String × String)),
      names.Nodup →
      (∀ n ∈ names, ((lookupId acc n).isSome = true ↔ n = nm)) →
      names.foldl (fun d n => if (lookupId d n).isSome then d else d ++ [(n, "Off")]) acc
        = acc ++ (names.filter fun n => decide (¬ n = nm)).map (fun n => (n, "Off")) := by
  intro names
  induction names with
  | nil => intro acc _ _; simp
  | cons n rest ih =>
    intro acc hnd hacc
    rw [List.nodup_cons] at hnd
    rw [List.foldl_cons, List.filter_cons]
    by_cases hn : n = nm
    · rw [if_pos ((hacc n (List.mem_cons_self n rest)).mpr hn)]
      rw [ih acc hnd.2 (fun m hm => hacc m (List.mem_cons_of_mem n hm))]
      rw [if_neg (by simpa using hn)]
    · have habs : (lookupId acc n).isSome = false := by
        rcases h : (lookupId acc n).isSome with _ | _
        · rfl
        · exact absurd ((hacc n (List.mem_cons_self n rest)).mp h) hn
      rw [if_neg (by simp [habs])]
      rw [ih (acc ++ [(n, "Off")]) hnd.2 ?_]
      · rw [if_pos (by simpa using hn)]
        simp
      · intro m hm
        rw [lookupId_append_absent n "Off" m acc habs]
        rw [if_neg (fun h : m = n => hnd.1 (h ▸ hm))]
        exact hacc m (List.mem_cons_of_mem n hm)

theorem validateSwitch_offs :
    ∀ l : List (String × String), (∀ p ∈ l, p.2 = "Off") →
      validateSwitch l = Except.ok l := by
  intro l
  induction l with
  | nil => intro _; rfl
  | cons p rest ih =>
    intro hall
    have hp : p.2 = "Off" := hall p (List.mem_cons_self p rest)
    have hoff : pyLowerCapitalize p.2 = "Off" := by rw [hp]; rfl
    show validateSwitch ((p.1, p.2) :: rest) = Except.ok ((p.1, p.2) :: rest)
    unfold validateSwitch
    rw [hoff]
    rw [if_pos (Or.inr rfl)]
    rw [ih (fun q hq => hall q (List.mem_cons_of_mem p hq))]
    rw [hp]

theorem switch_cmd_generic_single (v : SwitchVector) (nm val : String)
    (hmem : nm ∈ v.elements.map SwitchElement.name) :
    GenericVector.create_xml_command (v.elements.map SwitchElement.name) [] [(nm, val)]
      = Except.ok [(nm, val)] := by
  unfold GenericVector.create_xml_command
  have hne : (v.elements.map SwitchElement.name).length ≠ 0 := by
    intro h
    rw [List.length_eq_zero] at h
    rw [h] at hmem
    cases hmem
  rw [if_neg (by simpa using hne)]
  rw [if_neg (by simp)]
  rw [if_pos (by simpa using hmem)]
  rfl

end Contindi

namespace Contindi

theorem switchForce_on (v : SwitchVector) (nm val : String)
    (hrule : v.rule = SwitchRule.OneOfMany ∨ v.rule = SwitchRule.AtMostOne)
    (hval : pyLowerCapitalize val = "On")
    (hnd : (v.elements.map SwitchElement.name).Nodup) :
    switchForce v [(nm, val)]
      = Except.ok ((nm, val) ::
          ((v.elements.map SwitchElement.name).filter
            fun n => decide (¬ n = nm)).map (fun n => (n, "Off"))) := by
  unfold switchForce
  rw [if_pos ⟨rfl, hrule⟩]
  show (if pyLowerCapitalize val = "On" then _ else _) = _
  rw [hval, if_pos rfl]
  rw [fold_off_append nm _ [(nm, val)] hnd ?_]
  · simp
  · intro n _
    simp only [lookupId]
    by_cases h : nm = n
    · rw [if_pos h]
      simp [h.symm]
    · rw [if_neg h]
      simp only [Option.isSome_none, Bool.false_eq_true, false_iff]
      exact fun hh => h hh.symm

theorem switchForce_off_two (v : SwitchVector) (nm val other : String)
    (hrule : v.rule = SwitchRule.OneOfMany)
    (hlen : v.elements.length = 2)
    (hval : pyLowerCapitalize val = "Off")
    (hother : ((v.elements.map SwitchElement.name).filter
        fun n => decide (¬ n = nm)).headD "" = other)
    (hne : other ≠ nm) :
    switchForce v [(nm, val)] = Except.ok [(nm, val), (other, "On")] := by
  unfold switchForce
  rw [if_pos ⟨rfl, Or.inl hrule⟩]
  show (if pyLowerCapitalize val = "On" then _ else _) = _
  rw [hval, if_neg (by decide), if_pos ⟨hrule, hlen⟩]
  show Except.ok (dictSet [(nm, val)]
      (((v.elements.map SwitchElement.name).filter
        fun n => decide (¬ n = nm)).headD "") "On") = _
  rw [hother]
  unfold dictSet
  rw [if_neg ?_]
  · rfl
  · simp only [lookupId]
    rw [if_neg (fun h : nm = other => hne h.symm)]
    simp

theorem switchForce_off_ambiguous (v : SwitchVector) (nm val : String)
    (hrule : v.rule = SwitchRule.OneOfMany)
    (hlen : v.elements.length ≠ 2)
    (hval : pyLowerCapitalize val = "Off") :
    ∃ msg, switchForce v [(nm, val)] = Except.error msg := by
  unfold switchForce
  rw [if_pos ⟨rfl, Or.inl hrule⟩]
  show (∃ msg, (if pyLowerCapitalize val = "On" then _ else _) = Except.error msg)
  rw [hval, if_neg (by decide), if_neg (fun h => hlen h.2),
    if_neg (by rw [hrule]; decide)]
  exact ⟨_, rfl⟩

end Contindi

namespace Contindi

theorem validateSwitch_cons (n val : String) (rest out : List (String × String))
    (hv : pyLowerCapitalize val = "On" ∨ pyLowerCapitalize val = "Off")
    (hrest : validateSwitch rest = Except.ok out) :
    validateSwitch ((n, val) :: rest)
      = Except.ok ((n, pyLowerCapitalize val) :: out) := by
  unfold validateSwitch
  rw [if_pos hv, hrest]

theorem two_names_other (v : SwitchVector) (nm : String)
    (hnd : (v.elements.map SwitchElement.name).Nodup)
    (hmem : nm ∈ v.elements.map SwitchElement.name)
    (hlen : v.elements.length = 2) :
    ((v.elements.map SwitchElement.name).filter
      fun n => decide (¬ n = nm)).headD "" ≠ nm := by
  have hlen2 : (v.elements.map SwitchElement.name).length = 2 := by
    rw [List.length_map]
    exact hlen
  obtain ⟨a, b, hab⟩ := List.length_eq_two.mp hlen2
  rw [hab] at hnd hmem ⊢
  have hne : a ≠ b := by
    rw [List.nodup_cons] at hnd
    intro h
    exact hnd.1 (h ▸ List.mem_cons_self b [])
  rcases List.mem_cons.mp hmem with h | h
  · subst h
    rw [List.filter_cons, List.filter_cons]
    rw [if_neg (by simp)]
    rw [if_pos (by simpa using fun hh : b = nm => hne hh.symm)]
    simpa using fun hh : b = nm => hne hh.symm
  · rcases List.mem_cons.mp h with h2 | h2
    · subst h2
      rw [List.filter_cons, List.filter_cons]
      rw [if_pos (by simpa using hne)]
      simpa using hne
    · cases h2

/-- Names of the elements forced `Off` by a single-`On` request. -/
def forcedOff (v : SwitchVector) (nm : String) : List (String × String) :=
  ((v.elements.map SwitchElement.name).filter
    fun n => decide (¬ n = nm)).map (fun n => (n, "Off"))

end Contindi

/-- C6: for a single-element request against a switch vector with distinct
element names: turning one element `On` in a `one-of-many` or `at-most-one`
vector emits that element `On` and every other element `Off` in the same
message; turning one element `Off` in a `one-of-many` vector of exactly two
elements forces the other element `On`; any other single-element `Off`
request against a `one-of-many` vector is rejected with an error. -/
theorem c6_switch_single_element_command (v : SwitchVector) (nm val : String)
    (hnd : (v.elements.map SwitchElement.name).Nodup)
    (hmem : nm ∈ v.elements.map SwitchElement.name) :
    ((v.rule = SwitchRule.OneOfMany ∨ v.rule = SwitchRule.AtMostOne) →
      pyLowerCapitalize val = "On" →
      v.create_xml_command [] [(nm, val)]
        = Except.ok { device := v.device
                      name := v.name
                      elements := (nm, "On") :: forcedOff v nm }) ∧
    (v.rule = SwitchRule.OneOfMany → v.elements.length = 2 →
      pyLowerCapitalize val = "Off" →
      v.create_xml_command [] [(nm, val)]
        = Except.ok { device := v.device
                      name := v.name
                      elements := [(nm, "Off"),
                        (((v.elements.map SwitchElement.name).filter
                          fun n => decide (¬ n = nm)).headD "", "On")] }) ∧
    (v.rule = SwitchRule.OneOfMany → v.elements.length ≠ 2 →
      pyLowerCapitalize val = "Off" →
      ∃ msg, v.create_xml_command [] [(nm, val)] = Except.error msg) := by
  have hgen := switch_cmd_generic_single v nm val hmem
  refine ⟨?_, ?_, ?_⟩
  · intro hrule hval
    have hoffs : ∀ p ∈ forcedOff v nm, p.2 = "Off" := by
      intro p hp
      obtain ⟨n, _, rfl⟩ := List.mem_map.mp hp
      rfl
    have hvalid : validateSwitch ((nm, val) :: forcedOff v nm)
        = Except.ok ((nm, "On") :: forcedOff v nm) := by
      rw [validateSwitch_cons nm val _ _ (Or.inl hval)
        (validateSwitch_offs _ hoffs), hval]
    simp only [forcedOff] at hvalid
    simp only [SwitchVector.create_xml_command, hgen,
      switchForce_on v nm val hrule hval hnd, forcedOff, hvalid]
  · intro hrule hlen hval
    have hne := two_names_other v nm hnd hmem hlen
    have hforce := switchForce_off_two v nm val _ hrule hlen hval rfl hne
    have hvalid1 : validateSwitch
        [(((v.elements.map SwitchElement.name).filter
            fun n => decide (¬ n = nm)).headD "", "On")]
        = Except.ok [(((v.elements.map SwitchElement.name).filter
            fun n => decide (¬ n = nm)).headD "", "On")] := by
      rw [validateSwitch_cons _ "On" [] [] (Or.inl rfl) rfl]
      rfl
    have hvalid : validateSwitch
        [(nm, val), (((v.elements.map SwitchElement.name).filter
            fun n => decide (¬ n = nm)).headD "", "On")]
        = Except.ok [(nm, "Off"), (((v.elements.map SwitchElement.name).filter
            fun n => decide (¬ n = nm)).headD "", "On")] := by
      rw [validateSwitch_cons nm val _ _ (Or.inr hval) hvalid1, hval]
    simp only [SwitchVector.create_xml_command, hgen, hforce, hvalid]
  · intro hrule hlen hval
    obtain ⟨msg, hforce⟩ := switchForce_off_ambiguous v nm val hrule hlen hval
    refine ⟨msg, ?_⟩
    simp only [SwitchVector.create_xml_command, hgen, hforce]

/-- A two-element `one-of-many` vector for the forced-`On` case of C6. -/
def c6vec2 : SwitchVector :=
  { device := "d", name := "sw2", rule := SwitchRule.OneOfMany,
    elements := [{ name := "A", label := "A", value := SwitchState.On },
                 { name := "B", label := "B", value := SwitchState.Off }] }

/-- Witness for C6: the scenario-S2 single write `B=On` against `c5vec`
(`A=On,B=Off,C=Off`, one-of-many) forces `A` and `C` off in the same
message; a single `A=Off` against the two-element `c6vec2` forces `B` on;
and a single `B=Off` against the three-element `c5vec` is rejected. -/
theorem c6_switch_single_element_command_witness :
    ((c5vec.elements.map SwitchElement.name).Nodup ∧
      "B" ∈ c5vec.elements.map SwitchElement.name ∧
      (c6vec2.elements.map SwitchElement.name).Nodup ∧
      "A" ∈ c6vec2.elements.map SwitchElement.name ∧
      c6vec2.elements.length = 2 ∧ c5vec.elements.length ≠ 2) ∧
    c5vec.create_xml_command [] [("B", "On")]
      = Except.ok { device := c5vec.device
                    name := c5vec.name
                    elements := ("B", "On") :: forcedOff c5vec "B" } ∧
    c6vec2.create_xml_command [] [("A", "Off")]
      = Except.ok { device := c6vec2.device
                    name := c6vec2.name
                    elements := [("A", "Off"),
                      (((c6vec2.elements.map SwitchElement.name).filter
                        fun n => decide (¬ n = "A")).headD "", "On")] } ∧
    (∃ msg, c5vec.create_xml_command [] [("B", "Off")] = Except.error msg) :=
  ⟨⟨by decide, by decide, by decide, by decide, by decide, by decide⟩,
    (c6_switch_single_element_command c5vec "B" "On" (by decide) (by decide)).1
      (Or.inl rfl) rfl,
    (c6_switch_single_element_command c6vec2 "A" "Off" (by decide) (by decide)).2.1
      rfl (by decide) rfl,
    (c6_switch_single_element_command c5vec "B" "Off" (by decide) (by decide)).2.2
      rfl (by decide) rfl⟩

/-- Event shape produced by `Job.parse_job` for the C7 counterexample: a
freshly built `TimeConstrained` wrapper (its status defaults to `NotReady`;
`TimeConstrained.__init__` never sets it). -/
def c7ev : Ev :=
  { job_id := "J", priority := 1, max_time := 45, start_time := none,
    status := EventStatus.NotReady,
    updFn := fun s => s,
    trigFn := fun _ => EventStatus.Running,
    cancelFn := fun _ => EventStatus.Failed,
    cancelled := false }

/-- A queued job whose `jd_end = 50` lies in the past at `now = 100`. -/
def c7job : Job :=
  { cmd := "STATIC 10.0 20.0", priority := 1, jd_end := some 50,
    jd_start := some 0, duration := 10, filter := "R", log := [],
    status := JobStatus.QUEUED }

/-- The job parser for the counterexample: parsing succeeds (`parse_job`
never inspects `jd_end` beyond converting it to a datetime for the
`TimeConstrained` wrapper). -/
def c7parse : String → Job → Except String Ev := fun _ _ => Except.ok c7ev

/-- C7 counterexample: the claim as stated is false.  A fetched queued job
whose `jd_end = 50` lies in the past (`now = 100`) IS inserted into the event
map by the intake loop (`scheduler/scheduler.py` lines 54-76 never read
`jd_end`), and its catalog status stays `QUEUED` — nothing marks it
`expired`; indeed `JobStatus` (`scheduler/jobs.py` lines 20-24) has no
expired member at all. -/
theorem c7_counterexample :
    c7job.jd_end = some 50 ∧ (50 : ℚ) < 100 ∧ c7job.status = JobStatus.QUEUED ∧
    (lookupId (intake c7parse [("J", c7job)] [] [("J", c7job)]).1 "J").isSome = true ∧
    lookupId (intake c7parse [("J", c7job)] [] [("J", c7job)]).2 "J" = some c7job := by
  refine ⟨rfl, by norm_num, rfl, rfl, rfl⟩

/-- C7 (amended): during intake every fetched queued job not already in the
event map — in particular one whose `jd_end` lies in the past — is parsed
and inserted into the event map, and the catalog is left unchanged: the
intake loop (`scheduler/scheduler.py` lines 54-76) never reads `jd_end`,
and `JobStatus` has no expired member to mark. -/
theorem c7_intake_inserts_past_deadline_job
    (parse : String → Job → Except String Ev) (id : String) (job : Job) (ev : Ev)
    (evmap : List (String × Ev)) (jobs : List (String × Job))
    (hnot : (lookupId evmap id).isSome = false)
    (hq : job.status = JobStatus.QUEUED)
    (hp : parse id job = Except.ok ev) :
    (intake parse [(id, job)] evmap jobs).1 = evmap ++ [(id, ev)] ∧
    (intake parse [(id, job)] evmap jobs).2 = jobs := by
  constructor
  · show (intakeStep parse (evmap, jobs) (id, job)).1 = evmap ++ [(id, ev)]
    unfold intakeStep
    rw [if_neg (by simp [hnot]), if_neg (by simp [hq]), if_neg (by simp [hq]), hp]
  · show (intakeStep parse (evmap, jobs) (id, job)).2 = jobs
    unfold intakeStep
    rw [if_neg (by simp [hnot]), if_neg (by simp [hq]), if_neg (by simp [hq]), hp]

/-- Witness for C7 (amended) at the concrete past-deadline job `c7job`. -/
theorem c7_intake_inserts_past_deadline_job_witness :
    ((lookupId ([] : List (String × Ev)) "J").isSome = false ∧
      c7job.status = JobStatus.QUEUED ∧ c7parse "J" c7job = Except.ok c7ev) ∧
    ((intake c7parse [("J", c7job)] [] [("J", c7job)]).1 = [] ++ [("J", c7ev)] ∧
     (intake c7parse [("J", c7job)] [] [("J", c7job)]).2 = [("J", c7job)]) :=
  ⟨⟨rfl, rfl, rfl⟩,
    c7_intake_inserts_past_deadline_job c7parse "J" c7job c7ev [] [("J", c7job)]
      rfl rfl rfl⟩

namespace Contindi

/-! ### The `Sync` constructor (`events/sync.py` lines 87-90) -/

/-- State set by `Capture.__init__` (`events/capture.py` lines 7-13). -/
structure CaptureE where
  priority : Int
  duration : ℚ
  job_id : String
  status : EventStatus
  timestamp : Option ℚ
  max_time : ℚ
deriving DecidableEq, Repr

/-- `Capture.__init__(job_id, duration, priority=0)`. -/
def mkCapture (job_id : String) (duration : ℚ) (priority : Int) : CaptureE :=
  { priority := priority, duration := duration, job_id := job_id,
    status := EventStatus.Ready, timestamp := none, max_time := duration + 5 }

/-- State set by `_Sync.__init__` (`events/sync.py` lines 12-16); `max_time`
falls back to the `Event` dataclass default `45` (`events/base.py` line
71). -/
structure SyncInnerE where
  job_id : String
  priority : Int
  status : EventStatus
  attempts : Nat
  max_time : ℚ
deriving DecidableEq, Repr

/-- `_Sync.__init__(job_id, priority=0)`. -/
def mkSyncInner (job_id : String) (priority : Int) : SyncInnerE :=
  { job_id := job_id, priority := priority, status := EventStatus.Ready,
    attempts := 0, max_time := 45 }

/-- A sub-event of the sync series. -/
inductive SyncSub where
  | cap (c : CaptureE)
  | inner (s : SyncInnerE)
deriving DecidableEq, Repr

/-- `max_time` of a sync sub-event. -/
def SyncSub.maxTime : SyncSub → ℚ
  | SyncSub.cap c => c.max_time
  | SyncSub.inner s => s.max_time

/-- State set by `SeriesEvent.__init__` (`events/base.py` lines 166-173). -/
structure SyncSeriesE where
  job_id : String
  priority : Int
  event_list : List SyncSub
  current : Nat
  max_time : ℚ
deriving DecidableEq, Repr

/-- `SeriesEvent.__init__(job_id, priority, event_list)` (nonempty
`event_list`; the constructor raises otherwise). -/
def mkSeriesEvent (job_id : String) (priority : Int)
    (event_list : List SyncSub) : SyncSeriesE :=
  { job_id := job_id, priority := priority, event_list := event_list,
    current := 0, max_time := (event_list.map SyncSub.maxTime).sum + 10 }

/-- `Sync(job_id, priority=0)` (`events/sync.py` lines 87-90), translated
verbatim: `SeriesEvent("CaptureSolve", priority, [Capture(job_id, priority),
_Sync(job_id, priority)])`.  `SeriesEvent`'s first positional parameter is
`job_id`, so the series is built with job id `"CaptureSolve"`; `Capture`'s
second positional parameter is `duration`, so the capture's exposure
duration is the `priority` argument and its own priority is the `Capture`
default `0`. -/
def Sync (job_id : String) (priority : Int) : SyncSeriesE :=
  mkSeriesEvent "CaptureSolve" priority
    [SyncSub.cap (mkCapture job_id (priority : ℚ) 0),
     SyncSub.inner (mkSyncInner job_id priority)]

/-- Exposure duration of the first sub-event, when it is a `Capture`. -/
def firstSubDuration (s : SyncSeriesE) : Option ℚ :=
  match s.event_list with
  | SyncSub.cap c :: _ => some c.duration
  | _ => none

/-- Whether the series is `[Capture, _Sync]` in that order. -/
def isCaptureThenInner (s : SyncSeriesE) : Bool :=
  match s.event_list with
  | [SyncSub.cap _, SyncSub.inner _] => true
  | _ => false

end Contindi

/-- C9: a `Sync` event is indeed a series whose first sub-event is a
`Capture` followed by the sync inner event, but the capture's exposure
duration is not 1 second: `Sync` calls `Capture(job_id, priority)`, binding
the priority to `Capture`'s `duration` parameter, so the duration equals the
sync's priority argument — `0` seconds for the default priority, `5` for
priority 5.  (The series also receives `"CaptureSolve"` as its `job_id`.) -/
theorem c9_sync_capture_duration_is_priority :
    isCaptureThenInner (Sync "J" 0) = true ∧
    firstSubDuration (Sync "J" 0) = some 0 ∧
    firstSubDuration (Sync "J" 0) ≠ some 1 ∧
    firstSubDuration (Sync "J" 5) = some 5 ∧
    (Sync "J" 0).job_id = "CaptureSolve" := by
  refine ⟨rfl, ?_, ?_, ?_, rfl⟩
  · show some ((0 : Int) : ℚ) = some 0
    norm_num
  · show some ((0 : Int) : ℚ) ≠ some 1
    norm_num
  · show some ((5 : Int) : ℚ) = some 5
    norm_num

namespace Contindi

/-! ### The wire chunker (`parsing.py` lines 20-37 and 81-126)

Byte streams are modelled as `List Char` (the stream is decoded to `str`
before chunking in `system.py` line 236).  `str.strip()` strips whitespace
from both ends; the whitespace of our inputs is covered by
`Char.isWhitespace`. -/

/-- `str.strip()`. -/
def pyStrip (s : List Char) : List Char :=
  ((s.dropWhile Char.isWhitespace).reverse.dropWhile Char.isWhitespace).reverse

/-- The scan loop of `_digest_chunk` (`parsing.py` lines 105-115): walk the
text; on the pair `/>` return the prefix through it and the remainder, on a
bare `>` stop (`None` here means fall through to the end-tag search; a `>`
in final position is never examined by the python loop, whose range stops
one short, but both routes continue with the end-tag search). -/
def scanClose : List Char → List Char → Option (List Char × List Char)
  | acc, '/' :: '>' :: rest => some (acc ++ ['/', '>'], rest)
  | _, '>' :: _ => none
  | acc, c :: rest => scanClose (acc ++ [c]) rest
  | _, [] => none

/-- First occurrence of `pat` as a contiguous sublist: returns the prefix up
to and including `pat`, and the suffix after it (`text.find(end_str)` plus
slicing in `parsing.py` lines 117-126). -/
def findSub (pat : List Char) : List Char → Option (List Char × List Char)
  | [] => if pat.isEmpty then some ([], []) else none
  | c :: rest =>
    if pat.isPrefixOf (c :: rest) then some (pat, (c :: rest).drop pat.length)
    else
      match findSub pat rest with
      | some (pre, post) => some (c :: pre, post)
      | none => none

/-- `_digest_chunk` (`parsing.py` lines 81-126): strip, skip to `<`, try a
self-closed element, otherwise search for the matching end tag of the first
element name; incomplete input is returned as the residual. -/
def digestChunk (text0 : List Char) : Option (List Char) × List Char :=
  let text1 := pyStrip text0
  if text1.isEmpty then (none, text1)
  else
    let text2 := text1.dropWhile fun c => ¬ c = '<'
    if text2.isEmpty then (none, [])
    else if text2.length < 2 then (none, text2)
    else
      match scanClose [] text2 with
      | some (chunk, rest) =>
        let chunk2 := pyStrip chunk
        (if chunk2.isEmpty then none else some chunk2, rest)
      | none =>
        let elemName := (text2.takeWhile fun c => ¬ c.isWhitespace).drop 1
        let endStr := '<' :: '/' :: (elemName ++ ['>'])
        match findSub endStr text2 with
        | none => (none, text2)
        | some (pre, post) => (some (pyStrip pre), pyStrip post)

/-- The loop of `chunk_xml` (`parsing.py` lines 32-37), with fuel (every
successful digest strictly shrinks the text, so `length + 1` passes
suffice). -/
def chunkLoop : Nat → List Char → List (List Char) × List Char
  | 0, text => ([], text)
  | fuel + 1, text =>
    match digestChunk text with
    | (none, rem) => ([], rem)
    | (some c, rem) =>
      let r := chunkLoop fuel rem
      (c :: r.1, r.2)

/-- `chunk_xml` (`parsing.py` lines 20-37). -/
def chunk_xml (text : List Char) : List (List Char) × List Char :=
  chunkLoop (text.length + 1) text

/-- Feed the codec a sequence of byte pieces, carrying the unparsed residual
between calls and concatenating the complete elements found. -/
def feedPieces (pieces : List (List Char)) : List (List Char) × List Char :=
  pieces.foldl
    (fun acc piece =>
      let r := chunk_xml (acc.2 ++ piece)
      (acc.1 ++ r.1, r.2)) ([], [])

/-- Split a stream into consecutive pieces of `n` bytes (fuel-based). -/
def splitEveryAux (n : Nat) : Nat → List Char → List (List Char)
  | 0, _ => []
  | fuel + 1, s => if s.isEmpty then [] else s.take n :: splitEveryAux n fuel (s.drop n)

/-- Split a stream into consecutive pieces of `n` bytes. -/
def splitEvery (n : Nat) (s : List Char) : List (List Char) :=
  splitEveryAux n (s.length + 1) s

/-- The byte stream of scenario S1: one complete `defNumberVector`
element. -/
def s1stream : List Char :=
  ("<defNumberVector device=\"d\" name=\"v\" state=\"Ok\" perm=\"rw\"><defNumber name=\"x\" format=\"%g\" min=\"0\" max=\"10\" step=\"1\">5</defNumber></defNumberVector>").data

/-- `s1stream` with the bytes at indices 27 and 97 (the attribute-separating
spaces after `device="d"` and after `min="0"`, each sitting at the end of a
7-byte piece, where `str.strip()` deletes them from the carried residual)
missing: what the piecewise-fed chunker reassembles. -/
def s1corrupted : List Char :=
  s1stream.take 27 ++ (s1stream.drop 28).take 69 ++ s1stream.drop 98

end Contindi

set_option maxRecDepth 100000 in
/-- C8: the chunker is not split-invariant.  Fed whole, the S1 stream yields
exactly its one `defNumberVector` element; fed in 7-byte pieces with the
unparsed residual carried between calls, it yields a single different,
corrupted element: `_digest_chunk` strips the carried residual
(`parsing.py` lines 87 and 120), so the attribute-separating spaces that
fall at piece boundaries (stream indices 27 and 97) are deleted, producing
`device="d"name="v"` and `min="0"max="10"`, which is not well-formed XML
and decodes to no number vector at all. -/
theorem c8_chunker_drops_bytes_on_7byte_pieces :
    chunk_xml s1stream = ([s1stream], []) ∧
    feedPieces (splitEvery 7 s1stream) = ([s1corrupted], []) ∧
    s1corrupted ≠ s1stream := by
  refine ⟨by decide, by decide, by decide⟩
